import Mathlib

/-!
# Space-filling forest: geometry primitives, nodes, trees and the pairwise connection table

Shallow embedding of `src/primitives.h`.

* The scalar template parameter `T` is kept generic and stands for exact scalars: the
  theorems on coordinates and distances take `T` to be an ordered field, so rounding,
  overflow, underflow and the special values of a floating-point `T` are not modelled,
  and their statements are statements over exact coordinates.  Where the source calls
  `sqrt` the embedding takes the square-root function as an argument, so every
  definition stays executable; theorems that need it assume that the argument is an
  exact square root.
* Values of `int` are integers (`Int`), with `Int.tdiv` for the truncating `/` of C++.
  The table `SymmetricMatrix` has its `int` arithmetic in two forms: `new32`, `index32`,
  `cell32` and `Exists32` compute in 32-bit two's complement (`wrap32`) as the machine
  does, and `new`, `index`, `cell` and `Exists` are the same expressions over `ℤ`, equal
  to the former while `size * (size + 1)` fits in `int`.
* Raw pointers `R *` are addresses: `none` is the null pointer, `some a` points to the
  object stored at address `a` of a `Memory`.
* Static counters and flags (`globId`, `AStar`) are explicit arguments; `unsigned int`
  wraps modulo `2^32` and its conversion to `int` is `toInt`.
* Strings are lists of characters.
-/

namespace SFF

/-! ## Definitions -/

/-- Class `Point<T>`: the array `coords[3]`. -/
structure Point (T : Type) where
  c0 : T
  c1 : T
  c2 : T
deriving DecidableEq, Repr

/-- Class `Vector<T>`: the array `coords[3]`. -/
structure Vector (T : Type) where
  c0 : T
  c1 : T
  c2 : T
deriving DecidableEq, Repr

namespace Vector

variable {T : Type}

/-- Raw array access `coords[i]`, which is `Vector::operator[]`. -/
def get (v : Vector T) : Nat → T
  | 0 => v.c0
  | 1 => v.c1
  | _ => v.c2

/-- In-place write `coords[i] = val`. -/
def set (v : Vector T) (i : Nat) (val : T) : Vector T :=
  match i with
  | 0 => { v with c0 := val }
  | 1 => { v with c1 := val }
  | _ => { v with c2 := val }

end Vector

namespace Point

variable {T : Type}

/-- Default constructor `Point()`: `coords{0, 0, 0}`. -/
def zero [Zero T] : Point T := ⟨0, 0, 0⟩

/-- Constructor `Point(T x, T y)`: `coords{x, y, 0}`. -/
def mk2 [Zero T] (x y : T) : Point T := ⟨x, y, 0⟩

/-- Accessor `x()`. -/
def x (p : Point T) : T := p.c0

/-- Accessor `y()`. -/
def y (p : Point T) : T := p.c1

/-- Raw array access `coords[i]`. -/
def coords (p : Point T) : Nat → T
  | 0 => p.c0
  | 1 => p.c1
  | _ => p.c2

/-- Read access `operator[](int i)`: `coords[i]` for `i < 2`, and `1` otherwise. -/
def get [One T] (p : Point T) (i : Nat) : T :=
  if i < 2 then p.coords i else 1

/-- Method `setPosition(pos, val)`: ignored for `pos > 1`, else `coords[pos] = val`. -/
def setPosition (p : Point T) (pos : Nat) (val : T) : Point T :=
  if pos > 1 then p
  else match pos with
    | 0 => { p with c0 := val }
    | _ => { p with c1 := val }

/-- Comparison `operator==`: both `x()` and `y()` agree. -/
def eq [DecidableEq T] (p1 p2 : Point T) : Bool :=
  decide (p1.x = p2.x) && decide (p1.y = p2.y)

/-- Comparison `operator!=`. -/
def ne [DecidableEq T] (p1 p2 : Point T) : Bool :=
  decide (p1.x ≠ p2.x) || decide (p1.y ≠ p2.y)

/-- Comparison `operator<`. -/
def lt [LinearOrder T] (p1 p2 : Point T) : Bool :=
  decide (p1.x < p2.x) || (decide (p1.x = p2.x) && decide (p1.y < p2.y))

/-- Method `distance(other)`: the loop accumulates `diff * diff` for `i = 0, 1` and the
result is `sqrt(sum)`. -/
def distance [Ring T] (sqrt : T → T) (self other : Point T) : T :=
  sqrt ((List.range 2).foldl
    (fun sum i => let diff := self.coords i - other.get i; sum + diff * diff) 0)

end Point

namespace Vector

variable {T : Type}

/-- Constructor `Vector(Point p1, Point p2)`: `coords[i] = p2[i] - p1[i]` for `i = 0, 1`.
The source leaves `coords[2]` unwritten; it is `0` here and no modelled path reads it. -/
def ofPoints [Ring T] (p1 p2 : Point T) : Vector T :=
  (List.range 2).foldl (fun v i => v.set i (p2.get i - p1.get i)) ⟨0, 0, 0⟩

end Vector

/-- The quotient `a / b` of two exact scalars, which has no value for `b = 0`. -/
def divide {T : Type} [Field T] [DecidableEq T] (a b : T) : Option T :=
  if b = 0 then none else some (a / b)

namespace Point

variable {T : Type}

/-- Method `getStateInDistance(other, dist)` over exact scalars: starting from `Point()`,
coordinate `i` of the result is `coords[i] + direction[i] * (dist / realDist)` for
`i = 0, 1`.  There is no result when the quotient `dist / realDist` has none. -/
def getStateInDistance [Field T] [DecidableEq T] (sqrt : T → T) (self other : Point T)
    (dist : T) : Option (Point T) :=
  let realDist := self.distance sqrt other
  let direction := Vector.ofPoints self other
  (List.range 2).foldlM
    (fun retVal i => do
      let q ← divide dist realDist
      pure (retVal.setPosition i (self.coords i + direction.get i * q)))
    (Point.zero)

end Point

/-- A raw pointer: `none` is `nullptr`, `some a` is the address `a`. -/
abbrev Ptr := Option Nat

/-- Class `Node<T, Point<T>>`. -/
structure Node (T : Type) where
  Position : Point T
  Root : Ptr
  ExpandedRoot : Ptr
  Closest : Ptr
  Children : List Ptr
  ForceChildren : Bool
  DistanceToClosest : T
  DistanceToRoot : T
  VisibleNodes : List (Ptr × T)
  id : Nat
  nearObstacle : Bool

/-- Conversion of an `unsigned int` value to `int` (two's complement, 32 bits). -/
def toInt (u : Nat) : Int :=
  if u % 2 ^ 32 < 2 ^ 31 then ((u % 2 ^ 32 : Nat) : Int) else ((u % 2 ^ 32 : Nat) : Int) - 2 ^ 32

namespace Node

variable {T : Type}

/-- Method `GetId()`: the `unsigned int id` returned as `int`. -/
def GetId (n : Node T) : Int := toInt n.id

/-- Comparison `operator==` of nodes. -/
def eq (r l : Node T) : Bool := decide (r.GetId = l.GetId)

/-- Comparison `operator<` of nodes. -/
def lt (r l : Node T) : Bool := decide (r.GetId < l.GetId)

end Node

/-- The nodes in memory, by address. -/
abbrev Memory (T : Type) := Nat → Option (Node T)

/-- Dereference `*p`; there is no value for a null or dangling pointer. -/
def deref {T : Type} (mem : Memory T) (p : Ptr) : Option (Node T) := p.bind mem

/-- Struct `DistanceHolder<T, R>`. -/
structure DistanceHolder (T : Type) where
  node1 : Ptr
  node2 : Ptr
  distance : T
  plan : List Ptr
deriving DecidableEq

namespace DistanceHolder

variable {T : Type}

/-- Default constructor `DistanceHolder()`: null endpoints and the distance
`std::numeric_limits<T>::max()`, passed as `tmax`. -/
def default (tmax : T) : DistanceHolder T :=
  { node1 := none, node2 := none, distance := tmax, plan := [] }

/-- Constructor `DistanceHolder(R *first, R *second)`. -/
def mk2 [Ring T] (sqrt : T → T) (mem : Memory T) (first second : Ptr) :
    Option (DistanceHolder T) := do
  let f ← deref mem first
  let s ← deref mem second
  let ends := if f.lt s then (first, second) else (second, first)
  pure { node1 := ends.1, node2 := ends.2,
         distance := f.DistanceToRoot + s.DistanceToRoot + f.Position.distance sqrt s.Position,
         plan := [] }

/-- Constructor `DistanceHolder(R *first, R *second, T dist)`. -/
def mk3 (mem : Memory T) (first second : Ptr) (dist : T) : Option (DistanceHolder T) := do
  let f ← deref mem first
  let s ← deref mem second
  let ends := if f.lt s then (first, second) else (second, first)
  pure { node1 := ends.1, node2 := ends.2, distance := dist, plan := [] }

/-- Constructor `DistanceHolder(R *first, R *second, T dist, std::deque<R *> &plan)`: the
copied plan is reversed when the endpoints are swapped. -/
def mk4 (mem : Memory T) (first second : Ptr) (dist : T) (plan : List Ptr) :
    Option (DistanceHolder T) := do
  let f ← deref mem first
  let s ← deref mem second
  if f.lt s then
    pure { node1 := first, node2 := second, distance := dist, plan := plan }
  else
    pure { node1 := second, node2 := first, distance := dist, plan := plan.reverse }

/-- Method `Exists()`: `node1 != nullptr`. -/
def Exists (h : DistanceHolder T) : Bool := h.node1.isSome

/-- Method `UpdateDistance()`. -/
def UpdateDistance [Ring T] (sqrt : T → T) (mem : Memory T) (h : DistanceHolder T) :
    Option (DistanceHolder T) := do
  let n1 ← deref mem h.node1
  let n2 ← deref mem h.node2
  pure { h with
    distance := n1.DistanceToRoot + n2.DistanceToRoot + n1.Position.distance sqrt n2.Position }

end DistanceHolder

/-- Class `SymmetricMatrix<T>`: the cell buffer `holder` and `size`. -/
structure SymmetricMatrix (α : Type) where
  holder : List α
  size : Int

namespace SymmetricMatrix

variable {α : Type}

/-- Constructor `SymmetricMatrix(const int size)` with its arithmetic taken in `ℤ`:
`holder.resize(size * (size+1) / 2)` fills the buffer with default-constructed cells
`dflt`.  The constructor as the machine runs it is `new32`. -/
def new (dflt : α) (size : Int) : SymmetricMatrix α :=
  { holder := List.replicate (Int.toNat (Int.tdiv (size * (size + 1)) 2)) dflt, size := size }

/-- The index expression of `operator()(int i, int j)` with its arithmetic taken in `ℤ`.
The index as the machine computes it is `index32`; the two agree for `0 ≤ i, j < size` as
long as `size * (size + 1)` fits in `int`. -/
def index (size i j : Int) : Int :=
  if i ≤ j then i * size - Int.tdiv ((i - 1) * i) 2 + j - i
  else j * size - Int.tdiv ((j - 1) * j) 2 + i - j

/-- Access `operator()(i, j)` at the index `index`: the cell `holder[index]`; there is
none when the index falls outside the buffer. -/
def cell (m : SymmetricMatrix α) (i j : Int) : Option α :=
  let k := index m.size i j
  if 0 ≤ k then m.holder[k.toNat]? else none

/-- Method `Exists(i, j)`: `operator()(i, j).Exists()`. -/
def Exists {T : Type} (m : SymmetricMatrix (DistanceHolder T)) (i j : Int) : Option Bool :=
  (m.cell i j).map DistanceHolder.Exists

end SymmetricMatrix

/-- The result of an `int` operation in 32-bit two's complement: the exact value reduced
to the range `[-2^31, 2^31)`. -/
def wrap32 (x : Int) : Int := (x + 2 ^ 31) % 2 ^ 32 - 2 ^ 31

namespace SymmetricMatrix

variable {α : Type}

/-- Constructor `SymmetricMatrix(const int size)` on 32-bit `int`: the cell count
`size * (size+1) / 2` is computed with wrap-around and passed to `holder.resize`, which
has no result for a negative count (`std::length_error`). -/
def new32 (dflt : α) (size : Int) : Option (SymmetricMatrix α) :=
  let count := Int.tdiv (wrap32 (size * wrap32 (size + 1))) 2
  if count < 0 then none
  else some { holder := List.replicate count.toNat dflt, size := size }

/-- The buffer index computed by `operator()(int i, int j)` on 32-bit `int`:
`i * size - (i - 1) * i / 2 + j - i` for `i ≤ j`, with `i` and `j` exchanged otherwise,
every operation with wrap-around. -/
def index32 (size i j : Int) : Int :=
  if i ≤ j then
    wrap32 (wrap32 (wrap32 (wrap32 (i * size)
      - Int.tdiv (wrap32 (wrap32 (i - 1) * i)) 2) + j) - i)
  else
    wrap32 (wrap32 (wrap32 (wrap32 (j * size)
      - Int.tdiv (wrap32 (wrap32 (j - 1) * j)) 2) + i) - j)

/-- Access `operator()(i, j)` on 32-bit `int`: the cell `holder[index]`; there is none
when the index falls outside the buffer. -/
def cell32 (m : SymmetricMatrix α) (i j : Int) : Option α :=
  let k := index32 m.size i j
  if 0 ≤ k then m.holder[k.toNat]? else none

/-- Method `Exists(i, j)` on 32-bit `int`: `operator()(i, j).Exists()`. -/
def Exists32 {T : Type} (m : SymmetricMatrix (DistanceHolder T)) (i j : Int) :
    Option Bool :=
  (m.cell32 i j).map DistanceHolder.Exists

end SymmetricMatrix

/-- The constants of `std::numeric_limits<T>` for a floating type: the largest finite
value `max()` and the positive infinity `infinity()`. -/
structure NumericLimits (T : Type) where
  max : T
  infinity : T

/-- Values of `double` as exact rationals, with `⊤` for the positive infinity. -/
def doubleLimits : NumericLimits (WithTop ℚ) :=
  { max := (((2 ^ 53 - 1) * 2 ^ 971 : ℚ) : WithTop ℚ), infinity := ⊤ }

/-- The function `sqrt` is a square root on `T`: on non-negative arguments it returns the
non-negative root. -/
def IsSqrt {T : Type} [LinearOrderedField T] (sqrt : T → T) : Prop :=
  ∀ x : T, 0 ≤ x → 0 ≤ sqrt x ∧ sqrt x * sqrt x = x

/-- A parentless node at `(x, y)` with the given id and cost to its root, for worked
examples. -/
def sampleNode {T : Type} [Zero T] (id : Nat) (x y distanceToRoot : T) : Node T :=
  { Position := Point.mk2 x y, Root := none, ExpandedRoot := none, Closest := none,
    Children := [], ForceChildren := false, DistanceToClosest := 0,
    DistanceToRoot := distanceToRoot, VisibleNodes := [], id := id, nearObstacle := false }

/-- A memory holding node `a` at address 0 and node `b` at address 1, for worked
examples. -/
def sampleMemory {T : Type} (a b : Node T) : Memory T
  | 0 => some a
  | 1 => some b
  | _ => none

namespace Vector

variable {T : Type}

/-- Default constructor `Vector()`: `coords{0, 0, 0}`. -/
def zero [Zero T] : Vector T := ⟨0, 0, 0⟩

/-- Constructor `Vector(T x, T y)`: `coords{x, y, 0}`. -/
def mk2 [Zero T] (x y : T) : Vector T := ⟨x, y, 0⟩

/-- Constructor `Vector(Point<T> p)`: `coords{p.x(), p.y(), 0}`. -/
def ofPoint [Zero T] (p : Point T) : Vector T := ⟨p.x, p.y, 0⟩

/-- Dot product `operator*`. -/
def dot [Ring T] (v1 v2 : Vector T) : T :=
  v1.get 0 * v2.get 0 + v1.get 1 * v2.get 1

/-- Cross product `operator|`: the two values `cache[0]`, `cache[1]` are passed to
`Vector(T x, T y)`. -/
def cross [Ring T] (v1 v2 : Vector T) : Vector T :=
  let cache0 := v1.get 1 * v2.get 2 - v1.get 2 * v2.get 1
  let cache1 := v1.get 2 * v2.get 0 - v1.get 0 * v2.get 2
  Vector.mk2 cache0 cache1

/-- Difference `operator-`. -/
def sub [Ring T] (v1 v2 : Vector T) : Vector T :=
  Vector.mk2 (v1.get 0 - v2.get 0) (v1.get 1 - v2.get 1)

/-- Sum `operator+`. -/
def add [Ring T] (v1 v2 : Vector T) : Vector T :=
  Vector.mk2 (v2.get 0 + v1.get 0) (v2.get 1 + v1.get 1)

/-- Method `size()`: the loop accumulates `coords[i] * coords[i]` for `i = 0, 1` and the
result is `sqrt(retVal)`. -/
def size [Ring T] (sqrt : T → T) (v : Vector T) : T :=
  sqrt ((List.range 2).foldl (fun retVal i => retVal + v.get i * v.get i) 0)

/-- Method `normalize()`: `coords[i] /= s` for `i = 0, 1` with `s = size()`.  There is no
result when a quotient has none. -/
def normalize [Field T] [DecidableEq T] (sqrt : T → T) (v : Vector T) : Option (Vector T) :=
  let s := v.size sqrt
  (List.range 2).foldlM
    (fun w i => do
      let q ← divide (w.get i) s
      pure (w.set i q))
    v

end Vector

/-- Cost function `Distance(node1, ref)`. -/
def Distance {T : Type} [Ring T] (sqrt : T → T) (node1 ref : Node T) : T :=
  node1.Position.distance sqrt ref.Position

/-- Cost function `StarDistance(node1, ref)`, with the constants `0.7` and `0.3` as the
exact scalars `7/10` and `3/10`. -/
def StarDistance {T : Type} [Field T] (sqrt : T → T) (node1 ref : Node T) : T :=
  7 / 10 * node1.Position.distance sqrt ref.Position + 3 / 10 * node1.DistanceToRoot

/-- Class `Tree<T, R>`.  The class `Heap<T, R>` of the frontiers is only declared in
`primitives.h`; its type is the parameter `H`. -/
structure Tree (T H : Type) where
  nodes : List (Node T)
  Root : Ptr
  flannIndex : Ptr
  ptrToDel : List Ptr
  links : List (DistanceHolder T)
  frontiers : List H
  frontierFilter : List Bool
  eaten : List Ptr
  id : Nat

namespace Tree

variable {T H : Type}

/-- Method `AddFrontier(goal)`.  The static flag `AStar` is passed explicitly, and
`heapCtor` stands for the constructor `Heap(nodes, goal, bool, cost)`. -/
def AddFrontier [Field T] (AStar : Bool)
    (heapCtor : List (Node T) → Ptr → Bool → (Node T → Node T → T) → H)
    (sqrt : T → T) (t : Tree T H) (goal : Ptr) : Tree T H :=
  let prior :=
    if AStar then heapCtor t.nodes goal true (StarDistance sqrt)
    else heapCtor t.nodes goal true (Distance sqrt)
  { t with frontiers := t.frontiers ++ [prior], frontierFilter := t.frontierFilter ++ [false] }

/-- Method `EmptyFrontiers()`; `empty` stands for `Heap::empty()`. -/
def EmptyFrontiers (empty : H → Bool) (t : Tree T H) : Bool :=
  let retVal := t.frontiers.foldl (fun retVal prior => retVal && empty prior) true
  let fullFilter := t.frontierFilter.foldl (fun fullFilter filter => fullFilter && filter) true
  retVal || fullFilter

end Tree

/-- A tree without nodes that has the given frontiers and filter flags, for worked
examples. -/
def sampleTree {T H : Type} (frontiers : List H) (frontierFilter : List Bool) : Tree T H :=
  { nodes := [], Root := none, flannIndex := none, ptrToDel := [], links := [],
    frontiers := frontiers, frontierFilter := frontierFilter, eaten := [], id := 0 }

/-- The arguments of the constructor `Node(position, root, closest, distanceToClosest,
distanceToRoot)`. -/
structure NodeArgs (T : Type) where
  position : Point T
  root : Ptr
  closest : Ptr
  distanceToClosest : T
  distanceToRoot : T

namespace Node

variable {T : Type}

/-- Constructor `Node(position, root, closest, distanceToClosest, distanceToRoot)`.  The
static counter `globId` is explicit state: the node takes its value as id and the
`unsigned int` counter is returned incremented, modulo `2^32`.  `ExpandedRoot` is read
through `closest` when that pointer is not null. -/
def new (mem : Memory T) (globId : Nat) (a : NodeArgs T) : Option (Node T × Nat) :=
  match a.closest with
  | none =>
    some ({ Position := a.position, Root := a.root, ExpandedRoot := a.root,
            Closest := a.closest, Children := [], ForceChildren := false,
            DistanceToClosest := a.distanceToClosest, DistanceToRoot := a.distanceToRoot,
            VisibleNodes := [], id := globId, nearObstacle := false },
          (globId + 1) % 2 ^ 32)
  | some addr =>
    match mem addr with
    | none => none
    | some c =>
      some ({ Position := a.position, Root := a.root, ExpandedRoot := c.ExpandedRoot,
              Closest := a.closest, Children := [], ForceChildren := false,
              DistanceToClosest := a.distanceToClosest, DistanceToRoot := a.distanceToRoot,
              VisibleNodes := [], id := globId, nearObstacle := false },
            (globId + 1) % 2 ^ 32)

/-- A sequence of constructions from the counter value `globId`, each with its arguments
and the memory at its time; the result lists the nodes in construction order, with the
final counter. -/
def constructAll (globId : Nat) : List (Memory T × NodeArgs T) → Option (List (Node T) × Nat)
  | [] => some ([], globId)
  | step :: rest =>
    match Node.new step.1 globId step.2 with
    | none => none
    | some (n, g) =>
      match constructAll g rest with
      | none => none
      | some (ns, g') => some (n :: ns, g')

end Node

/-- The arguments of a parentless node at the origin, for worked examples. -/
def sampleArgs {T : Type} [Zero T] : NodeArgs T :=
  { position := Point.zero, root := none, closest := none,
    distanceToClosest := 0, distanceToRoot := 0 }

/-- The product of two consecutive integers is even, so halving `(i - 1) * i` is exact. -/
theorem two_mul_tdiv_pred_mul (i : Int) : 2 * Int.tdiv ((i - 1) * i) 2 = (i - 1) * i := by
  have h : (2 : Int) ∣ (i - 1) * i := by
    have := Int.even_mul_pred_self i
    rw [mul_comm] at this
    exact this.two_dvd
  exact Int.mul_tdiv_cancel' h

/-- Halving `n * (n + 1)` is exact. -/
theorem two_mul_tdiv_mul_succ (n : Int) : 2 * Int.tdiv (n * (n + 1)) 2 = n * (n + 1) :=
  Int.mul_tdiv_cancel' (Int.even_mul_succ_self n).two_dvd

/-- On values of `unsigned int` the conversion to `int` is injective. -/
theorem toInt_inj {a b : Nat} (ha : a < 2 ^ 32) (hb : b < 2 ^ 32) (h : toInt a = toInt b) :
    a = b := by
  unfold toInt at h
  rw [Nat.mod_eq_of_lt ha, Nat.mod_eq_of_lt hb] at h
  split_ifs at h <;> omega

/-- Below `2^31` the conversion to `int` keeps the value. -/
theorem toInt_of_lt {a : Nat} (ha : a < 2 ^ 31) : toInt a = (a : Int) := by
  unfold toInt
  rw [Nat.mod_eq_of_lt (by omega), if_pos ha]

/-- Inside the range of `int` an operation does not wrap. -/
theorem wrap32_eq {x : Int} (h1 : -2 ^ 31 ≤ x) (h2 : x < 2 ^ 31) : wrap32 x = x := by
  unfold wrap32
  omega

namespace SymmetricMatrix

/-- The index does not depend on the order of its two arguments. -/
theorem index_comm (size i j : Int) : index size i j = index size j i := by
  unfold index
  by_cases h1 : i ≤ j <;> by_cases h2 : j ≤ i
  · have : i = j := le_antisymm h1 h2
    subst this; rfl
  · simp [h1, h2]
  · simp [h1, h2]
  · omega

/-- Closed form of twice the index on a canonical pair. -/
theorem two_mul_index (size : Int) {i j : Int} (h : i ≤ j) :
    2 * index size i j = 2 * i * size - (i - 1) * i + 2 * (j - i) := by
  unfold index
  rw [if_pos h]
  have := two_mul_tdiv_pred_mul i
  linarith

/-- Lower bound of the index on a canonical pair. -/
theorem index_nonneg_of_le {size i j : Int} (hi : 0 ≤ i) (hij : i ≤ j) (hj : j < size) :
    0 ≤ index size i j := by
  have h := two_mul_index size hij
  nlinarith [mul_nonneg hi (by linarith : (0 : Int) ≤ size - 1 - i), mul_nonneg hi hi]

/-- Upper bound of the index on a canonical pair. -/
theorem index_lt_of_le {size i j : Int} (hij : i ≤ j) (hj : j < size) :
    index size i j < Int.tdiv (size * (size + 1)) 2 := by
  have h := two_mul_index size hij
  have hT := two_mul_tdiv_mul_succ size
  nlinarith [sq_nonneg (size - i - 1), mul_nonneg (by linarith : (0:Int) ≤ size - i - 1) (by linarith : (0:Int) ≤ size - i - 1)]

/-- The index of every in-range pair lies inside the buffer. -/
theorem index_mem {size i j : Int} (hi : 0 ≤ i) (hi2 : i < size) (hj : 0 ≤ j) (hj2 : j < size) :
    0 ≤ index size i j ∧ index size i j < Int.tdiv (size * (size + 1)) 2 := by
  rcases le_total i j with h | h
  · exact ⟨index_nonneg_of_le hi h hj2, index_lt_of_le h hj2⟩
  · rw [index_comm]
    exact ⟨index_nonneg_of_le hj h hi2, index_lt_of_le h hi2⟩


/-- A cell of a later row lies strictly after every cell of an earlier row. -/
theorem index_lt_of_row_lt {size i j k l : Int} (hij : i ≤ j) (hj : j < size)
    (hkl : k ≤ l) (hl : l < size) (hik : i < k) : index size i j < index size k l := by
  have h1 := two_mul_index size hij
  have h2 := two_mul_index size hkl
  nlinarith [mul_nonneg (by linarith : (0 : Int) ≤ k - i - 1)
    (by linarith : (0 : Int) ≤ 2 * size - i - k - 2)]

/-- On canonical pairs the index determines the pair. -/
theorem index_inj {size i j k l : Int} (hij : i ≤ j) (hj : j < size)
    (hkl : k ≤ l) (hl : l < size) (h : index size i j = index size k l) :
    i = k ∧ j = l := by
  rcases lt_trichotomy i k with hlt | heq | hgt
  · have := index_lt_of_row_lt hij hj hkl hl hlt
    omega
  · subst heq
    have h1 := two_mul_index size hij
    have h2 := two_mul_index size hkl
    exact ⟨rfl, by linarith⟩
  · have := index_lt_of_row_lt hkl hl hij hj hgt
    omega

/-- Every position before the start of row `m` is the index of a canonical pair. -/
theorem index_surj_below (size : Int) (m : Nat) (hm : (m : Int) ≤ size) :
    ∀ c : Int, 0 ≤ c → c < index size m m →
      ∃ i j : Int, 0 ≤ i ∧ i ≤ j ∧ j < size ∧ index size i j = c := by
  induction m with
  | zero =>
    intro c hc h
    have h0 : index size ((0 : Nat) : Int) ((0 : Nat) : Int) = 0 := by
      simp [index]
    omega
  | succ m ih =>
    intro c hc h
    have hm2 : (m : Int) ≤ size := by push_cast at hm; omega
    by_cases hlt : c < index size m m
    · exact ih hm2 c hc hlt
    · have h1 := two_mul_index size (le_refl (m : Int))
      have h2 := two_mul_index size (le_refl ((m + 1 : Nat) : Int))
      push_cast at h2 hm h
      have hstep : index size ((m : Int) + 1) ((m : Int) + 1) = index size m m + size - m := by
        nlinarith
      refine ⟨m, m + (c - index size m m), by omega, by omega, by omega, ?_⟩
      have h3 := two_mul_index size
        (by omega : (m : Int) ≤ m + (c - index size m m))
      linarith


/-- The constructor allocates `size * (size + 1) / 2` cells. -/
theorem new_length {α : Type} (dflt : α) (size : Int) :
    ((new dflt size).holder.length : Int) = Int.tdiv (size * (size + 1)) 2 := by
  have h := two_mul_tdiv_mul_succ size
  have hpos : 0 ≤ size * (size + 1) := by
    rcases le_or_lt 0 size with h0 | h0
    · exact mul_nonneg h0 (by omega)
    · exact mul_nonneg_of_nonpos_of_nonpos (by omega) (by omega)
  simp only [new, List.length_replicate]
  omega

/-- Every in-range cell of a freshly constructed table is the default cell. -/
theorem cell_new {α : Type} (dflt : α) (N i j : Int)
    (hi : 0 ≤ i) (hiN : i < N) (hj : 0 ≤ j) (hjN : j < N) :
    (new dflt N).cell i j = some dflt := by
  obtain ⟨h0, h1⟩ := index_mem hi hiN hj hjN
  have hlt : (index N i j).toNat < (Int.tdiv (N * (N + 1)) 2).toNat := by omega
  simp only [cell, new, if_pos h0]
  rw [List.getElem?_replicate, if_pos hlt]

/-- While `size * (size + 1)` fits in `int`, the machine computes the exact index. -/
theorem index32_eq_index {size i j : Int} (hN : size ≤ 46340)
    (hi : 0 ≤ i) (hi2 : i < size) (hj : 0 ≤ j) (hj2 : j < size) :
    index32 size i j = index size i j := by
  have key : ∀ a b : Int, 0 ≤ a → a ≤ b → b < size →
      wrap32 (wrap32 (wrap32 (wrap32 (a * size)
        - Int.tdiv (wrap32 (wrap32 (a - 1) * a)) 2) + b) - a)
      = a * size - Int.tdiv ((a - 1) * a) 2 + b - a := by
    intro a b ha hab hb
    have hev := two_mul_tdiv_pred_mul a
    have hidx := two_mul_index size hab
    have hnn := index_nonneg_of_le ha hab hb
    have hlt := index_lt_of_le hab hb
    have hT := two_mul_tdiv_mul_succ size
    simp only [index, if_pos hab] at hidx hnn hlt
    have hsz : size * (size + 1) ≤ 46340 * 46341 := by nlinarith
    have h1 : 0 ≤ a * size := mul_nonneg ha (by omega)
    have h2 : a * size ≤ size * size := by nlinarith
    have h3 : 0 ≤ (a - 1) * a := by
      rcases (by omega : a = 0 ∨ 1 ≤ a) with h | h
      · subst h; simp
      · exact mul_nonneg (by omega) (by omega)
    have h4 : (a - 1) * a ≤ a * size := by nlinarith
    rw [wrap32_eq (x := a - 1) (by omega) (by omega)]
    rw [wrap32_eq (x := (a - 1) * a) (by omega) (by nlinarith)]
    rw [wrap32_eq (x := a * size) (by omega) (by nlinarith)]
    rw [wrap32_eq (x := a * size - Int.tdiv ((a - 1) * a) 2) (by omega) (by nlinarith)]
    rw [wrap32_eq (x := a * size - Int.tdiv ((a - 1) * a) 2 + b) (by omega) (by nlinarith)]
    rw [wrap32_eq (by omega) (by nlinarith)]
  unfold index32 index
  by_cases h : i ≤ j
  · rw [if_pos h, if_pos h]
    exact key i j hi h hj2
  · rw [if_neg h, if_neg h]
    exact key j i hj (by omega) hi2

/-- While `size * (size + 1)` fits in `int`, the constructor allocates the exact count. -/
theorem new32_eq_new {α : Type} (dflt : α) {size : Int} (h0 : 0 ≤ size)
    (hN : size ≤ 46340) : new32 dflt size = some (new dflt size) := by
  have hsz : size * (size + 1) ≤ 46340 * 46341 := by nlinarith
  have hnn : 0 ≤ size * (size + 1) := mul_nonneg h0 (by omega)
  have hT := two_mul_tdiv_mul_succ size
  unfold new32 new
  rw [wrap32_eq (x := size + 1) (by omega) (by omega)]
  rw [wrap32_eq (x := size * (size + 1)) (by omega) (by omega)]
  simp only []
  rw [if_neg (by omega)]

/-- A size whose cell count computation fits in `int` is at most 46340. -/
theorem size_le_of_fits {size : Int} (hfit : size * (size + 1) < 2 ^ 31) : size ≤ 46340 := by
  by_contra h
  have h1 : (46341 : Int) ≤ size := by omega
  nlinarith

/-- In a table built by the constructor on a size that fits, every in-range access finds
the default cell. -/
theorem cell32_new32 {α : Type} (dflt : α) (N i j : Int) (hfit : N * (N + 1) < 2 ^ 31)
    (hi : 0 ≤ i) (hiN : i < N) (hj : 0 ≤ j) (hjN : j < N) :
    ∃ m, new32 dflt N = some m ∧ m.size = N ∧
      (m.holder.length : Int) = Int.tdiv (N * (N + 1)) 2 ∧ m.cell32 i j = some dflt := by
  have hN := size_le_of_fits hfit
  refine ⟨new dflt N, new32_eq_new dflt (by omega) hN, rfl, new_length dflt N, ?_⟩
  have hc := cell_new dflt N i j hi hiN hj hjN
  have hidx : index32 (new dflt N).size i j = index (new dflt N).size i j :=
    index32_eq_index hN hi hiN hj hjN
  simp only [cell32, hidx]
  exact hc

/-- C2, the claim as stated fails: called with size 65536 the constructor computes the
cell count `65536 * 65537 / 2` in 32-bit `int` and allocates 32768 cells, while the
in-range access `(1, 1)` computes the index 65536, outside that buffer; called with size
46341 the constructor has no result. -/
theorem index32_leaves_buffer :
    (∃ m, new32 () 65536 = some m ∧ m.holder.length = 32768 ∧
      index32 65536 1 1 = 65536 ∧ m.cell32 1 1 = none) ∧
    new32 () 46341 = none := by
  have hidx : index32 65536 1 1 = 65536 := by decide
  have hcount : Int.tdiv (wrap32 (65536 * wrap32 (65536 + 1))) 2 = 32768 := by decide
  have hcount2 : Int.tdiv (wrap32 (46341 * wrap32 (46341 + 1))) 2 = -1073716337 := by
    decide
  have hnew : new32 () 65536 = some ⟨List.replicate 32768 (), 65536⟩ := by
    simp only [new32, hcount]
    rfl
  have hnew2 : new32 () 46341 = none := by
    simp only [new32, hcount2]
    rfl
  refine ⟨⟨_, hnew, List.length_replicate _ _, hidx, ?_⟩, hnew2⟩
  simp only [cell32, hidx]
  rw [if_pos (by decide)]
  exact List.getElem?_eq_none (by rw [List.length_replicate]; decide)

/-- C2, amended: for every `N ≥ 1` whose product `N * (N + 1)` fits in `int` (that is,
`N ≤ 46340`) and all `i`, `j` with `0 ≤ i < N` and `0 ≤ j < N`, the index computed by
`operator()(i, j)` lies in `[0, N*(N+1)/2)`, the constructor allocates exactly
`N*(N+1)/2` cells, so the access finds a cell, and the largest index `N*(N+1)/2 - 1` is
reached at `(N-1, N-1)`. -/
theorem index32_in_buffer {α : Type} (dflt : α) (N i j : Int) (hN : 1 ≤ N)
    (hfit : N * (N + 1) < 2 ^ 31)
    (hi : 0 ≤ i) (hiN : i < N) (hj : 0 ≤ j) (hjN : j < N) :
    (0 ≤ index32 N i j ∧ index32 N i j < Int.tdiv (N * (N + 1)) 2) ∧
    (∃ m, new32 dflt N = some m ∧ m.size = N ∧
      (m.holder.length : Int) = Int.tdiv (N * (N + 1)) 2 ∧ ∃ c, m.cell32 i j = some c) ∧
    index32 N (N - 1) (N - 1) = Int.tdiv (N * (N + 1)) 2 - 1 := by
  have hN2 := size_le_of_fits hfit
  refine ⟨?_, ?_, ?_⟩
  · rw [index32_eq_index hN2 hi hiN hj hjN]
    exact index_mem hi hiN hj hjN
  · obtain ⟨m, h1, h2, h3, h4⟩ := cell32_new32 dflt N i j hfit hi hiN hj hjN
    exact ⟨m, h1, h2, h3, dflt, h4⟩
  · rw [index32_eq_index hN2 (by omega) (by omega) (by omega) (by omega)]
    have h1 := two_mul_index N (le_refl (N - 1))
    have h2 := two_mul_tdiv_mul_succ N
    nlinarith

/-- Witness of `index32_in_buffer`: the table of size 3 at `(2, 1)`. -/
theorem index32_in_buffer_witness :
    (0 ≤ index32 3 2 1 ∧ index32 3 2 1 < Int.tdiv (3 * (3 + 1)) 2) ∧
    (∃ m, new32 () 3 = some m ∧ m.size = 3 ∧
      (m.holder.length : Int) = Int.tdiv (3 * (3 + 1)) 2 ∧ ∃ c, m.cell32 2 1 = some c) ∧
    index32 3 (3 - 1) (3 - 1) = Int.tdiv (3 * (3 + 1)) 2 - 1 :=
  index32_in_buffer () 3 2 1 (by decide) (by decide) (by decide) (by decide) (by decide)
    (by decide)

/-- C3, the claim as stated fails: for the size 65536 the distinct canonical pairs
`(0, 32767)` and `(65535, 65535)` are both mapped to the index 32767. -/
theorem index32_collision :
    (0 : Int) ≤ 0 ∧ (0 : Int) ≤ 32767 ∧ (32767 : Int) < 65536 ∧
    (0 : Int) ≤ 65535 ∧ (65535 : Int) ≤ 65535 ∧ (65535 : Int) < 65536 ∧
    index32 65536 0 32767 = 32767 ∧ index32 65536 65535 65535 = 32767 ∧
    ¬ ((0 : Int) = 65535 ∧ (32767 : Int) = 65535) := by
  decide

/-- C3, amended: for every size `N ≥ 0` whose product `N * (N + 1)` fits in `int` (that
is, `N ≤ 46340`, the sizes for which the constructor allocates `N*(N+1)/2` cells), on
canonical pairs `i ≤ j` in range the index map of `operator()` is injective (distinct
unordered pairs never share a cell), takes its values in `[0, N*(N+1)/2)` and reaches
every position of that interval: it is a bijection from canonical pairs onto the buffer. -/
theorem index32_bijective (N : Int) (hN : 0 ≤ N) (hfit : N * (N + 1) < 2 ^ 31) :
    (∀ i j k l : Int, 0 ≤ i → i ≤ j → j < N → 0 ≤ k → k ≤ l → l < N →
      index32 N i j = index32 N k l → i = k ∧ j = l) ∧
    (∀ i j : Int, 0 ≤ i → i ≤ j → j < N →
      0 ≤ index32 N i j ∧ index32 N i j < Int.tdiv (N * (N + 1)) 2) ∧
    (∀ c : Int, 0 ≤ c → c < Int.tdiv (N * (N + 1)) 2 →
      ∃ i j : Int, 0 ≤ i ∧ i ≤ j ∧ j < N ∧ index32 N i j = c) := by
  have hN2 := size_le_of_fits hfit
  refine ⟨?_, ?_, ?_⟩
  · intro i j k l hi hij hj hk hkl hl h
    rw [index32_eq_index hN2 hi (by omega) (by omega) hj,
      index32_eq_index hN2 hk (by omega) (by omega) hl] at h
    exact index_inj hij hj hkl hl h
  · intro i j hi hij hj
    rw [index32_eq_index hN2 hi (by omega) (by omega) hj]
    exact ⟨index_nonneg_of_le hi hij hj, index_lt_of_le hij hj⟩
  · intro c hc hlt
    have h1 := two_mul_index N (le_refl N)
    have h2 := two_mul_tdiv_mul_succ N
    have hNN : index N N N = Int.tdiv (N * (N + 1)) 2 := by nlinarith
    have hcast : ((N.toNat : Nat) : Int) = N := Int.toNat_of_nonneg hN
    obtain ⟨i, j, hi, hij, hj, he⟩ :=
      index_surj_below N N.toNat (by omega) c hc (by rw [hcast, hNN]; exact hlt)
    exact ⟨i, j, hi, hij, hj, by
      rw [index32_eq_index hN2 hi (by omega) (by omega) hj]; exact he⟩

/-- Witness of `index32_bijective`: position 4 of the table of size 3 is the cell of a
canonical pair. -/
theorem index32_bijective_witness :
    ∃ i j : Int, 0 ≤ i ∧ i ≤ j ∧ j < 3 ∧ index32 3 i j = 4 :=
  (index32_bijective 3 (by decide) (by decide)).2.2 4 (by decide) (by decide)

end SymmetricMatrix

namespace Point

variable {T : Type}

/-- The loop of `distance` computes the square root of the sum of the two squared
coordinate differences. -/
theorem distance_eq [CommRing T] (sqrt : T → T) (p q : Point T) :
    p.distance sqrt q = sqrt ((p.x - q.x) ^ 2 + (p.y - q.y) ^ 2) := by
  have h : p.distance sqrt q
      = sqrt (0 + (p.c0 - q.c0) * (p.c0 - q.c0) + (p.c1 - q.c1) * (p.c1 - q.c1)) := rfl
  rw [h]
  congr 1
  simp only [x, y]
  ring

/-- The value of `distance` does not depend on the order of the two points. -/
theorem distance_comm [CommRing T] (sqrt : T → T) (p q : Point T) :
    p.distance sqrt q = q.distance sqrt p := by
  rw [distance_eq, distance_eq]
  congr 1
  ring

end Point

namespace DistanceHolder

variable {T : Type}

/-- For ids on the same side of `2^31` the order of `GetId` is the order of the ids. -/
theorem id_le_of_GetId_le (n1 n2 : Node T) (h : n1.GetId ≤ n2.GetId)
    (h1 : n1.id < 2 ^ 32) (h2 : n2.id < 2 ^ 32)
    (hside : n1.id < 2 ^ 31 ↔ n2.id < 2 ^ 31) : n1.id ≤ n2.id := by
  simp only [Node.GetId, toInt] at h
  rw [Nat.mod_eq_of_lt h1, Nat.mod_eq_of_lt h2] at h
  split_ifs at h <;> omega

/-- Value of the two-node constructor on valid pointers. -/
theorem mk2_eq [Ring T] (sqrt : T → T) (mem : Memory T) (first second : Ptr) (f s : Node T)
    (hf : deref mem first = some f) (hs : deref mem second = some s) :
    mk2 sqrt mem first second = some
      { node1 := if f.lt s then first else second,
        node2 := if f.lt s then second else first,
        distance := f.DistanceToRoot + s.DistanceToRoot + f.Position.distance sqrt s.Position,
        plan := [] } := by
  cases hb : f.lt s <;> simp [mk2, hf, hs, hb]

/-- Value of the constructor taking a distance on valid pointers. -/
theorem mk3_eq (mem : Memory T) (first second : Ptr) (f s : Node T) (dist : T)
    (hf : deref mem first = some f) (hs : deref mem second = some s) :
    mk3 mem first second dist = some
      { node1 := if f.lt s then first else second,
        node2 := if f.lt s then second else first,
        distance := dist, plan := [] } := by
  cases hb : f.lt s <;> simp [mk3, hf, hs, hb]

/-- Value of the constructor taking a distance and a plan on valid pointers. -/
theorem mk4_eq (mem : Memory T) (first second : Ptr) (f s : Node T) (dist : T)
    (plan : List Ptr)
    (hf : deref mem first = some f) (hs : deref mem second = some s) :
    mk4 mem first second dist plan = some
      { node1 := if f.lt s then first else second,
        node2 := if f.lt s then second else first,
        distance := dist, plan := if f.lt s then plan else plan.reverse } := by
  cases hb : f.lt s <;> simp [mk4, hf, hs, hb]

/-- The endpoints stored by a constructor are its two arguments, lower `GetId` first. -/
theorem endpoints_ordered (mem : Memory T) (first second : Ptr) (f s : Node T)
    (hf : deref mem first = some f) (hs : deref mem second = some s)
    (h : DistanceHolder T) (d : T) (pl : List Ptr)
    (hh : h = { node1 := if f.lt s then first else second,
                node2 := if f.lt s then second else first, distance := d, plan := pl }) :
    ∃ n1 n2, deref mem h.node1 = some n1 ∧ deref mem h.node2 = some n2 ∧
      n1.GetId ≤ n2.GetId ∧
      (n1.id < 2 ^ 32 → n2.id < 2 ^ 32 → (n1.id < 2 ^ 31 ↔ n2.id < 2 ^ 31) →
        n1.id ≤ n2.id) ∧
      ((h.node1 = first ∧ h.node2 = second) ∨ (h.node1 = second ∧ h.node2 = first)) := by
  have h1 : h.node1 = if f.lt s then first else second := by rw [hh]
  have h2 : h.node2 = if f.lt s then second else first := by rw [hh]
  clear hh
  by_cases hlt : f.GetId < s.GetId
  · have hb : f.lt s = true := by simp [Node.lt, hlt]
    rw [hb] at h1 h2
    simp only [if_true] at h1 h2
    exact ⟨f, s, by rw [h1, hf], by rw [h2, hs], le_of_lt hlt,
      id_le_of_GetId_le f s (le_of_lt hlt), Or.inl ⟨h1, h2⟩⟩
  · have hb : f.lt s = false := by simp [Node.lt, hlt]
    rw [hb] at h1 h2
    simp only [Bool.false_eq_true, if_false] at h1 h2
    exact ⟨s, f, by rw [h1, hs], by rw [h2, hf], not_lt.mp hlt,
      id_le_of_GetId_le s f (not_lt.mp hlt), Or.inr ⟨h1, h2⟩⟩

/-- On valid pointers each node-taking constructor returns a holder whose endpoints are
the two arguments, the one with the lower `GetId` first. -/
theorem ctor_result [Ring T] (sqrt : T → T) (mem : Memory T) (first second : Ptr)
    (f s : Node T) (dist : T) (plan : List Ptr)
    (hf : deref mem first = some f) (hs : deref mem second = some s)
    (r : Option (DistanceHolder T))
    (hr : r ∈ [mk2 sqrt mem first second, mk3 mem first second dist,
      mk4 mem first second dist plan]) :
    ∃ d pl, r = some { node1 := if f.lt s then first else second,
                       node2 := if f.lt s then second else first,
                       distance := d, plan := pl } := by
  simp only [List.mem_cons, List.mem_singleton, List.not_mem_nil, or_false] at hr
  rcases hr with h | h | h
  · exact ⟨_, _, h.trans (mk2_eq sqrt mem first second f s hf hs)⟩
  · exact ⟨_, _, h.trans (mk3_eq mem first second f s dist hf hs)⟩
  · exact ⟨_, _, h.trans (mk4_eq mem first second f s dist plan hf hs)⟩

/-- C4, the claim as stated fails: for the node of id `2^31` passed before the node of id
`2^31 - 1`, `operator<` compares the `int` values `-2^31` and `2^31 - 1`, and the
constructor stores the node of id `2^31` as `node1`: `node1.id ≤ node2.id` is false. -/
theorem ctor_stores_larger_id_first :
    ∃ h n1 n2,
      mk3 (sampleMemory (sampleNode (2 ^ 31) (0 : ℚ) 0 0) (sampleNode (2 ^ 31 - 1) 3 4 1))
        (some 0) (some 1) 9 = some h ∧
      deref (sampleMemory (sampleNode (2 ^ 31) (0 : ℚ) 0 0) (sampleNode (2 ^ 31 - 1) 3 4 1))
        h.node1 = some n1 ∧
      deref (sampleMemory (sampleNode (2 ^ 31) (0 : ℚ) 0 0) (sampleNode (2 ^ 31 - 1) 3 4 1))
        h.node2 = some n2 ∧
      n1.id = 2 ^ 31 ∧ n2.id = 2 ^ 31 - 1 ∧ ¬ n1.id ≤ n2.id := by
  refine ⟨⟨some 0, some 1, 9, []⟩, sampleNode (2 ^ 31) 0 0 0, sampleNode (2 ^ 31 - 1) 3 4 1,
    by decide, rfl, rfl, rfl, rfl, by decide⟩

/-- C4, amended: for nodes `first`, `second` and each of the three node-taking
constructors, the endpoints of the constructed holder are `first` and `second` in one of
the two orders, with `node1.GetId() ≤ node2.GetId()`, the ids as `operator<` compares
them; `node1.id ≤ node2.id` holds whenever the two ids lie on the same side of `2^31`, in
particular when both are below `2^31`. -/
theorem ctor_orders_endpoints [Ring T] (sqrt : T → T) (mem : Memory T) (first second : Ptr)
    (f s : Node T) (dist : T) (plan : List Ptr)
    (hf : deref mem first = some f) (hs : deref mem second = some s) :
    ∀ r ∈ [mk2 sqrt mem first second, mk3 mem first second dist,
        mk4 mem first second dist plan],
      ∃ h n1 n2, r = some h ∧ deref mem h.node1 = some n1 ∧ deref mem h.node2 = some n2 ∧
        n1.GetId ≤ n2.GetId ∧
        (n1.id < 2 ^ 32 → n2.id < 2 ^ 32 → (n1.id < 2 ^ 31 ↔ n2.id < 2 ^ 31) →
          n1.id ≤ n2.id) ∧
        ((h.node1 = first ∧ h.node2 = second) ∨ (h.node1 = second ∧ h.node2 = first)) := by
  intro r hr
  obtain ⟨d, pl, e⟩ := ctor_result sqrt mem first second f s dist plan hf hs r hr
  obtain ⟨n1, n2, p⟩ := endpoints_ordered mem first second f s hf hs _ d pl rfl
  exact ⟨_, n1, n2, e, p⟩

/-- Witness of `ctor_orders_endpoints`: the plan-taking constructor with the node of id 7
passed before the node of id 3. -/
theorem ctor_orders_endpoints_witness :
    ∃ h n1 n2,
      mk4 (sampleMemory (sampleNode 7 (0 : ℝ) 0 0) (sampleNode 3 3 4 1)) (some 0) (some 1) 9
          [some 0, some 1] = some h ∧
        deref (sampleMemory (sampleNode 7 (0 : ℝ) 0 0) (sampleNode 3 3 4 1)) h.node1 = some n1 ∧
        deref (sampleMemory (sampleNode 7 (0 : ℝ) 0 0) (sampleNode 3 3 4 1)) h.node2 = some n2 ∧
        n1.GetId ≤ n2.GetId ∧
        (n1.id < 2 ^ 32 → n2.id < 2 ^ 32 → (n1.id < 2 ^ 31 ↔ n2.id < 2 ^ 31) →
          n1.id ≤ n2.id) ∧
        ((h.node1 = some 0 ∧ h.node2 = some 1) ∨ (h.node1 = some 1 ∧ h.node2 = some 0)) :=
  ctor_orders_endpoints Real.sqrt (sampleMemory (sampleNode 7 (0 : ℝ) 0 0) (sampleNode 3 3 4 1))
    (some 0) (some 1) (sampleNode 7 0 0 0) (sampleNode 3 3 4 1) 9 [some 0, some 1] rfl rfl
    _ (by simp)

/-- C5: the holder built by the two-node constructor from nodes `a`, `b` has
`distance = node1.DistanceToRoot + node2.DistanceToRoot + ‖node1.Position - node2.Position‖`
on its stored endpoints, and `DistanceHolder(a, b)` and `DistanceHolder(b, a)` have the
same distance. -/
theorem mk2_distance [CommRing T] (sqrt : T → T) (mem : Memory T) (a b : Ptr)
    (na nb : Node T) (ha : deref mem a = some na) (hb : deref mem b = some nb) :
    (∃ h n1 n2, mk2 sqrt mem a b = some h ∧
      deref mem h.node1 = some n1 ∧ deref mem h.node2 = some n2 ∧
      h.distance = n1.DistanceToRoot + n2.DistanceToRoot +
        sqrt ((n1.Position.x - n2.Position.x) ^ 2 + (n1.Position.y - n2.Position.y) ^ 2)) ∧
    (∃ h h', mk2 sqrt mem a b = some h ∧ mk2 sqrt mem b a = some h' ∧
      h.distance = h'.distance) := by
  have e1 := mk2_eq sqrt mem a b na nb ha hb
  have e2 := mk2_eq sqrt mem b a nb na hb ha
  constructor
  · cases hlt : na.lt nb
    · refine ⟨_, nb, na, e1, ?_, ?_, ?_⟩
      · simp [hlt, hb]
      · simp [hlt, ha]
      · simp only []
        rw [Point.distance_comm, Point.distance_eq]
        ring
    · refine ⟨_, na, nb, e1, ?_, ?_, ?_⟩
      · simp [hlt, ha]
      · simp [hlt, hb]
      · simp only []
        rw [Point.distance_eq]
  · refine ⟨_, _, e1, e2, ?_⟩
    simp only []
    rw [Point.distance_comm sqrt nb.Position na.Position]
    ring

/-- Witness of `mk2_distance`: nodes at `(0, 0)` and `(3, 4)` with costs 0 and 1. -/
theorem mk2_distance_witness :
    (∃ h n1 n2, mk2 Real.sqrt (sampleMemory (sampleNode 7 (0 : ℝ) 0 0) (sampleNode 3 3 4 1))
        (some 0) (some 1) = some h ∧
      deref (sampleMemory (sampleNode 7 (0 : ℝ) 0 0) (sampleNode 3 3 4 1)) h.node1 = some n1 ∧
      deref (sampleMemory (sampleNode 7 (0 : ℝ) 0 0) (sampleNode 3 3 4 1)) h.node2 = some n2 ∧
      h.distance = n1.DistanceToRoot + n2.DistanceToRoot +
        Real.sqrt ((n1.Position.x - n2.Position.x) ^ 2 + (n1.Position.y - n2.Position.y) ^ 2)) ∧
    (∃ h h', mk2 Real.sqrt (sampleMemory (sampleNode 7 (0 : ℝ) 0 0) (sampleNode 3 3 4 1))
        (some 0) (some 1) = some h ∧
      mk2 Real.sqrt (sampleMemory (sampleNode 7 (0 : ℝ) 0 0) (sampleNode 3 3 4 1))
        (some 1) (some 0) = some h' ∧
      h.distance = h'.distance) :=
  mk2_distance Real.sqrt (sampleMemory (sampleNode 7 (0 : ℝ) 0 0) (sampleNode 3 3 4 1))
    (some 0) (some 1) (sampleNode 7 0 0 0) (sampleNode 3 3 4 1) rfl rfl

/-- C6: for a holder whose two endpoints are set, whatever distance it held, after
`UpdateDistance()` the distance is
`node1.DistanceToRoot + node2.DistanceToRoot + ‖node1.Position - node2.Position‖` on the
current values of the endpoints, `node1`, `node2` and `plan` are unchanged, and a second
`UpdateDistance()` changes nothing. -/
theorem UpdateDistance_spec [CommRing T] (sqrt : T → T) (mem : Memory T)
    (h : DistanceHolder T) (n1 n2 : Node T)
    (h1 : deref mem h.node1 = some n1) (h2 : deref mem h.node2 = some n2) :
    ∃ h', UpdateDistance sqrt mem h = some h' ∧
      h'.distance = n1.DistanceToRoot + n2.DistanceToRoot +
        sqrt ((n1.Position.x - n2.Position.x) ^ 2 + (n1.Position.y - n2.Position.y) ^ 2) ∧
      h'.node1 = h.node1 ∧ h'.node2 = h.node2 ∧ h'.plan = h.plan ∧
      UpdateDistance sqrt mem h' = some h' := by
  refine ⟨{ h with distance := n1.DistanceToRoot + n2.DistanceToRoot +
      n1.Position.distance sqrt n2.Position }, ?_, ?_, rfl, rfl, rfl, ?_⟩
  · simp [UpdateDistance, h1, h2]
  · simp only []
    rw [Point.distance_eq]
  · simp [UpdateDistance, h1, h2]

/-- Witness of `UpdateDistance_spec`: a holder with a stale distance 100 between the
nodes at `(0, 0)` and `(3, 4)`. -/
theorem UpdateDistance_spec_witness :
    ∃ h', UpdateDistance Real.sqrt (sampleMemory (sampleNode 3 (0 : ℝ) 0 0) (sampleNode 7 3 4 1))
        { node1 := some 0, node2 := some 1, distance := 100, plan := [some 0, some 1] }
        = some h' ∧
      h'.distance = (sampleNode 3 (0 : ℝ) 0 0).DistanceToRoot +
        (sampleNode 7 (3 : ℝ) 4 1).DistanceToRoot +
        Real.sqrt (((sampleNode 3 (0 : ℝ) 0 0).Position.x - (sampleNode 7 (3 : ℝ) 4 1).Position.x) ^ 2
          + ((sampleNode 3 (0 : ℝ) 0 0).Position.y
              - (sampleNode 7 (3 : ℝ) 4 1).Position.y) ^ 2) ∧
      h'.node1 = some 0 ∧ h'.node2 = some 1 ∧ h'.plan = [some 0, some 1] ∧
      UpdateDistance Real.sqrt (sampleMemory (sampleNode 3 (0 : ℝ) 0 0) (sampleNode 7 3 4 1)) h'
        = some h' :=
  UpdateDistance_spec Real.sqrt (sampleMemory (sampleNode 3 (0 : ℝ) 0 0) (sampleNode 7 3 4 1))
    { node1 := some 0, node2 := some 1, distance := 100, plan := [some 0, some 1] }
    (sampleNode 3 0 0 0) (sampleNode 7 3 4 1) rfl rfl

/-- A constructor that returns a holder has read both nodes, so both endpoints are set. -/
theorem ctor_endpoints_set [Ring T] (sqrt : T → T) (mem : Memory T) (first second : Ptr)
    (dist : T) (plan : List Ptr) (r : Option (DistanceHolder T))
    (hr : r ∈ [mk2 sqrt mem first second, mk3 mem first second dist,
      mk4 mem first second dist plan])
    (h : DistanceHolder T) (hh : r = some h) : h.node1 ≠ none ∧ h.node2 ≠ none := by
  cases hf : deref mem first with
  | none =>
    simp only [List.mem_cons, List.mem_singleton, List.not_mem_nil, or_false] at hr
    rcases hr with e | e | e <;> rw [e] at hh <;> simp [mk2, mk3, mk4, hf] at hh
  | some f =>
    cases hs : deref mem second with
    | none =>
      simp only [List.mem_cons, List.mem_singleton, List.not_mem_nil, or_false] at hr
      rcases hr with e | e | e <;> rw [e] at hh <;> simp [mk2, mk3, mk4, hf, hs] at hh
    | some s =>
      obtain ⟨d, pl, e⟩ := ctor_result sqrt mem first second f s dist plan hf hs r hr
      obtain ⟨n1, n2, d1, d2, -⟩ := endpoints_ordered mem first second f s hf hs _ d pl rfl
      have : _ = h := Option.some.inj (e.symm.trans hh)
      subst this
      constructor
      · intro hn; rw [hn] at d1; simp [deref] at d1
      · intro hn; rw [hn] at d2; simp [deref] at d2

/-- C8, the claim as stated fails: a holder with `node1` set and `node2` null reports
`Exists()` although not both endpoints are set. -/
theorem Exists_not_both_set :
    (⟨some 0, none, (0 : ℚ), []⟩ : DistanceHolder ℚ).Exists = true ∧
    ¬ ((⟨some 0, none, (0 : ℚ), []⟩ : DistanceHolder ℚ).node1 ≠ none ∧
       (⟨some 0, none, (0 : ℚ), []⟩ : DistanceHolder ℚ).node2 ≠ none) := by
  constructor
  · rfl
  · intro h
    exact h.2 rfl

/-- C8, amended: `Exists()` is true exactly when `node1` is set, whatever `node2` is; the
default constructor leaves both endpoints null and every node-taking constructor sets
both, so on constructed holders `Exists()` is true exactly when both endpoints are set;
`SymmetricMatrix::Exists(i, j)` is `Exists()` of the cell `(i, j)`. -/
theorem Exists_iff_node1 [Ring T] :
    (∀ h : DistanceHolder T, h.Exists = true ↔ h.node1 ≠ none) ∧
    (∀ tmax : T, (default tmax).Exists = false ∧
      (default tmax).node1 = none ∧ (default tmax).node2 = none) ∧
    (∀ (sqrt : T → T) (mem : Memory T) (first second : Ptr) (dist : T) (plan : List Ptr),
      ∀ r ∈ [mk2 sqrt mem first second, mk3 mem first second dist,
          mk4 mem first second dist plan],
        ∀ h, r = some h → (h.Exists = true ↔ (h.node1 ≠ none ∧ h.node2 ≠ none))) ∧
    (∀ (m : SymmetricMatrix (DistanceHolder T)) (i j : Int),
      (m.Exists i j = some true ↔ ∃ c, m.cell i j = some c ∧ c.Exists = true) ∧
      (m.Exists i j = some false ↔ ∃ c, m.cell i j = some c ∧ c.Exists = false)) := by
  have hE : ∀ h : DistanceHolder T, h.Exists = true ↔ h.node1 ≠ none := by
    intro h
    cases hn : h.node1 <;> simp [Exists, hn]
  refine ⟨hE, ?_, ?_, ?_⟩
  · intro tmax
    exact ⟨rfl, rfl, rfl⟩
  · intro sqrt mem first second dist plan r hr h hh
    have hs := ctor_endpoints_set sqrt mem first second dist plan r hr h hh
    rw [hE]
    exact ⟨fun _ => hs, fun hb => hb.1⟩
  · intro m i j
    simp [SymmetricMatrix.Exists]

/-- Witness of `Exists_iff_node1`: the holder built by the constructor taking a distance
from the nodes of ids 7 and 3. -/
theorem Exists_iff_node1_witness :
    (⟨some 1, some 0, 9, []⟩ : DistanceHolder ℚ).Exists = true ↔
      ((⟨some 1, some 0, 9, []⟩ : DistanceHolder ℚ).node1 ≠ none ∧
       (⟨some 1, some 0, 9, []⟩ : DistanceHolder ℚ).node2 ≠ none) :=
  (@Exists_iff_node1 ℚ _).2.2.1 id
    (sampleMemory (sampleNode 7 (0 : ℚ) 0 0) (sampleNode 3 3 4 1)) (some 0) (some 1) 9 []
    _ (List.mem_cons_of_mem _ (List.mem_cons_self _ _)) ⟨some 1, some 0, 9, []⟩ (by decide)

end DistanceHolder

namespace SymmetricMatrix

/-- C7, the claim as stated fails: for `double`, the distance in the only cell of a fresh
table of size 1 is the largest finite value, not the infinity; and in the fresh table of
size 65536, which holds 32768 cells, the in-range access `(1, 1)` finds no cell. -/
theorem fresh_cell_distance_finite :
    (∃ m c, new32 (DistanceHolder.default doubleLimits.max) 1 = some m ∧
      m.cell32 0 0 = some c ∧
      c.distance = doubleLimits.max ∧ c.distance ≠ doubleLimits.infinity) ∧
    (∃ m, new32 (DistanceHolder.default doubleLimits.max) 65536 = some m ∧
      m.holder.length = 32768 ∧ m.cell32 1 1 = none ∧ m.Exists32 1 1 = none) := by
  constructor
  · obtain ⟨m, h1, -, -, h4⟩ :=
      cell32_new32 (DistanceHolder.default doubleLimits.max) 1 0 0
        (by decide) (by decide) (by decide) (by decide) (by decide)
    exact ⟨m, _, h1, h4, rfl, WithTop.coe_ne_top⟩
  · have hidx : index32 65536 1 1 = 65536 := by decide
    have hnew : new32 (DistanceHolder.default doubleLimits.max) 65536
        = some ⟨List.replicate 32768 (DistanceHolder.default doubleLimits.max), 65536⟩ := by
      have hcount : Int.tdiv (wrap32 (65536 * wrap32 (65536 + 1))) 2 = 32768 := by decide
      simp only [new32, hcount]
      rfl
    have hcell : (⟨List.replicate 32768 (DistanceHolder.default doubleLimits.max), 65536⟩ :
        SymmetricMatrix (DistanceHolder (WithTop ℚ))).cell32 1 1 = none := by
      simp only [cell32, hidx]
      rw [if_pos (by decide)]
      exact List.getElem?_eq_none (by rw [List.length_replicate]; decide)
    exact ⟨_, hnew, List.length_replicate _ _, hcell, by simp only [Exists32, hcell]; rfl⟩

/-- C7, amended: for every `N` whose product `N * (N + 1)` fits in `int` (that is,
`N ≤ 46340`) and in-range `i`, `j`, each cell of a freshly constructed table of size `N`
is the default holder: `node1` and `node2` are null, the plan is empty, the distance is
`std::numeric_limits<T>::max()`, and `Exists(i, j)` returns false. -/
theorem fresh_table_absent {T : Type} (tmax : T) (N i j : Int)
    (hfit : N * (N + 1) < 2 ^ 31)
    (hi : 0 ≤ i) (hiN : i < N) (hj : 0 ≤ j) (hjN : j < N) :
    ∃ m, new32 (DistanceHolder.default tmax) N = some m ∧
      m.cell32 i j = some { node1 := none, node2 := none, distance := tmax, plan := [] } ∧
      m.Exists32 i j = some false := by
  obtain ⟨m, h1, -, -, h4⟩ :=
    cell32_new32 (DistanceHolder.default tmax) N i j hfit hi hiN hj hjN
  refine ⟨m, h1, h4, ?_⟩
  simp only [Exists32, h4]
  rfl

/-- Witness of `fresh_table_absent`: cell `(1, 2)` of a fresh table of size 3 over
`double`. -/
theorem fresh_table_absent_witness :
    ∃ m, new32 (DistanceHolder.default doubleLimits.max) 3 = some m ∧
      m.cell32 1 2
        = some { node1 := none, node2 := none, distance := doubleLimits.max, plan := [] } ∧
      m.Exists32 1 2 = some false :=
  fresh_table_absent doubleLimits.max 3 1 2 (by decide) (by decide) (by decide) (by decide)
    (by decide)

end SymmetricMatrix

/-- The real square root is a square root in the sense of `IsSqrt`. -/
theorem isSqrt_real : IsSqrt Real.sqrt :=
  fun x hx => ⟨Real.sqrt_nonneg x, Real.mul_self_sqrt hx⟩

/-- A square root vanishes only at zero. -/
theorem IsSqrt.eq_zero_iff {T : Type} [LinearOrderedField T] {sqrt : T → T}
    (hs : IsSqrt sqrt) {x : T} (hx : 0 ≤ x) : sqrt x = 0 ↔ x = 0 := by
  obtain ⟨_, h2⟩ := hs x hx
  constructor
  · intro h
    rw [h] at h2
    simpa using h2.symm
  · intro h
    subst h
    obtain ⟨_, h3⟩ := hs 0 le_rfl
    exact mul_self_eq_zero.mp h3

/-- A square root undoes squaring on non-negative scalars. -/
theorem IsSqrt.sqrt_mul_self {T : Type} [LinearOrderedField T] {sqrt : T → T}
    (hs : IsSqrt sqrt) {d : T} (hd : 0 ≤ d) : sqrt (d * d) = d := by
  obtain ⟨h1, h2⟩ := hs (d * d) (mul_self_nonneg d)
  rcases mul_self_eq_mul_self_iff.mp h2 with h | h
  · exact h
  · have : d = 0 := by linarith
    rw [h, this]
    simp

namespace Point

variable {T : Type}

/-- The sum of squares under the root vanishes exactly for points equal under
`operator==`. -/
theorem sq_sum_eq_zero_iff [LinearOrderedField T] (a b : Point T) :
    (a.x - b.x) ^ 2 + (a.y - b.y) ^ 2 = 0 ↔ a.eq b = true := by
  simp only [eq, Bool.and_eq_true, decide_eq_true_eq]
  constructor
  · intro h
    have h1 : (a.x - b.x) ^ 2 = 0 := by nlinarith [sq_nonneg (a.x - b.x), sq_nonneg (a.y - b.y)]
    have h2 : (a.y - b.y) ^ 2 = 0 := by nlinarith [sq_nonneg (a.x - b.x), sq_nonneg (a.y - b.y)]
    exact ⟨sub_eq_zero.mp (pow_eq_zero_iff (by norm_num) |>.mp h1),
      sub_eq_zero.mp (pow_eq_zero_iff (by norm_num) |>.mp h2)⟩
  · rintro ⟨h1, h2⟩
    rw [h1, h2]
    ring

/-- C9: for a square root `sqrt` and all points `a`, `b`, `a.distance(b)` equals
`sqrt((a.x-b.x)^2 + (a.y-b.y)^2)`, is non-negative, equals `b.distance(a)`, and is zero if
and only if `a == b` under `operator==`. -/
theorem distance_euclidean [LinearOrderedField T] (sqrt : T → T) (hs : IsSqrt sqrt)
    (a b : Point T) :
    a.distance sqrt b = sqrt ((a.x - b.x) ^ 2 + (a.y - b.y) ^ 2) ∧
    0 ≤ a.distance sqrt b ∧
    a.distance sqrt b = b.distance sqrt a ∧
    (a.distance sqrt b = 0 ↔ a.eq b = true) := by
  have hnn : (0 : T) ≤ (a.x - b.x) ^ 2 + (a.y - b.y) ^ 2 := by positivity
  refine ⟨distance_eq sqrt a b, ?_, distance_comm sqrt a b, ?_⟩
  · rw [distance_eq]
    exact (hs _ hnn).1
  · rw [distance_eq, hs.eq_zero_iff hnn]
    exact sq_sum_eq_zero_iff a b

/-- Witness of `distance_euclidean`: the points `(0, 0)` and `(3, 4)` over the reals. -/
theorem distance_euclidean_witness :
    IsSqrt Real.sqrt ∧
    (Point.mk2 (0 : ℝ) 0).distance Real.sqrt (Point.mk2 3 4)
      = Real.sqrt (((Point.mk2 (0 : ℝ) 0).x - (Point.mk2 (3 : ℝ) 4).x) ^ 2
          + ((Point.mk2 (0 : ℝ) 0).y - (Point.mk2 (3 : ℝ) 4).y) ^ 2) ∧
    0 ≤ (Point.mk2 (0 : ℝ) 0).distance Real.sqrt (Point.mk2 3 4) ∧
    (Point.mk2 (0 : ℝ) 0).distance Real.sqrt (Point.mk2 3 4)
      = (Point.mk2 (3 : ℝ) 4).distance Real.sqrt (Point.mk2 0 0) :=
  ⟨isSqrt_real,
    (distance_euclidean Real.sqrt isSqrt_real (Point.mk2 0 0) (Point.mk2 3 4)).1,
    (distance_euclidean Real.sqrt isSqrt_real (Point.mk2 0 0) (Point.mk2 3 4)).2.1,
    (distance_euclidean Real.sqrt isSqrt_real (Point.mk2 0 0) (Point.mk2 3 4)).2.2.1⟩

/-- Value of `getStateInDistance` when the two points are at non-zero distance. -/
theorem getStateInDistance_eq [Field T] [DecidableEq T] (sqrt : T → T) (a b : Point T)
    (d : T) (hL : a.distance sqrt b ≠ 0) :
    a.getStateInDistance sqrt b d = some
      ⟨a.c0 + (b.c0 - a.c0) * (d / a.distance sqrt b),
       a.c1 + (b.c1 - a.c1) * (d / a.distance sqrt b), 0⟩ := by
  have hr : List.range 2 = [0, 1] := rfl
  simp [getStateInDistance, divide, hL, hr, Vector.ofPoints, Vector.set, Vector.get,
    Point.get, Point.coords, Point.setPosition, Point.zero]

/-- There is no value of `getStateInDistance` when the two points are at distance zero. -/
theorem getStateInDistance_none [Field T] [DecidableEq T] (sqrt : T → T) (a b : Point T)
    (d : T) (hL : a.distance sqrt b = 0) :
    a.getStateInDistance sqrt b d = none := by
  have hr : List.range 2 = [0, 1] := rfl
  simp [getStateInDistance, divide, hL, hr]

/-- C10, the claim as stated fails: for `a == b` and `d = 0 = ‖b - a‖` the quotient
`dist / realDist` divides by zero and `getStateInDistance` yields no point. -/
theorem getStateInDistance_same_point :
    (Point.mk2 (1 : ℝ) 2).eq (Point.mk2 1 2) = true ∧
    (0 : ℝ) ≤ 0 ∧ (0 : ℝ) ≤ (Point.mk2 (1 : ℝ) 2).distance Real.sqrt (Point.mk2 1 2) ∧
    (Point.mk2 (1 : ℝ) 2).getStateInDistance Real.sqrt (Point.mk2 1 2) 0 = none ∧
    (Point.mk2 (1 : ℝ) 2).getStateInDistance Real.sqrt (Point.mk2 1 2)
      ((Point.mk2 (1 : ℝ) 2).distance Real.sqrt (Point.mk2 1 2)) = none := by
  have h0 : (Point.mk2 (1 : ℝ) 2).distance Real.sqrt (Point.mk2 1 2) = 0 := by
    rw [distance_eq]
    simp
  refine ⟨by simp [eq], le_rfl, by rw [h0], ?_, ?_⟩
  · exact getStateInDistance_none _ _ _ _ h0
  · exact getStateInDistance_none _ _ _ _ h0

/-- C10, amended: over exact coordinates (an ordered field with an exact square root
`sqrt`), for all points `a`, `b` that differ under `operator==` and every `d` with
`0 ≤ d ≤ ‖b - a‖`, the point
`r = a.getStateInDistance(b, d)` lies on the segment from `a` to `b` and `‖r - a‖ = d`;
and `a.getStateInDistance(b, ‖a - b‖)` equals `b` under `operator==`. -/
theorem getStateInDistance_on_segment [LinearOrderedField T] (sqrt : T → T)
    (hs : IsSqrt sqrt) (a b : Point T) (d : T)
    (hab : a.eq b = false) (hd0 : 0 ≤ d) (hd : d ≤ a.distance sqrt b) :
    (∃ r, a.getStateInDistance sqrt b d = some r ∧
      (∃ t, 0 ≤ t ∧ t ≤ 1 ∧ r.x = a.x + t * (b.x - a.x) ∧ r.y = a.y + t * (b.y - a.y)) ∧
      r.distance sqrt a = d) ∧
    (∃ r, a.getStateInDistance sqrt b (a.distance sqrt b) = some r ∧ r.eq b = true) := by
  have hnn : (0 : T) ≤ (a.x - b.x) ^ 2 + (a.y - b.y) ^ 2 := by positivity
  have hne : (a.x - b.x) ^ 2 + (a.y - b.y) ^ 2 ≠ 0 := by
    intro h
    rw [(sq_sum_eq_zero_iff a b).mp h] at hab
    exact Bool.noConfusion hab
  obtain ⟨hL0, hLL⟩ := hs _ hnn
  rw [← distance_eq sqrt a b] at hL0 hLL
  have hL : a.distance sqrt b ≠ 0 := by
    intro h
    rw [distance_eq] at h
    exact hne ((hs.eq_zero_iff hnn).mp h)
  have hLpos : 0 < a.distance sqrt b := lt_of_le_of_ne hL0 (Ne.symm hL)
  constructor
  · refine ⟨_, getStateInDistance_eq sqrt a b d hL, ⟨d / a.distance sqrt b,
      div_nonneg hd0 hL0, (div_le_one hLpos).mpr hd, ?_, ?_⟩, ?_⟩
    · simp only [x]; ring
    · simp only [y]; ring
    · rw [distance_eq]
      simp only [x, y] at hLL ⊢
      have harg : (a.c0 + (b.c0 - a.c0) * (d / a.distance sqrt b) - a.c0) ^ 2
          + (a.c1 + (b.c1 - a.c1) * (d / a.distance sqrt b) - a.c1) ^ 2 = d * d := by
        have : (a.c0 + (b.c0 - a.c0) * (d / a.distance sqrt b) - a.c0) ^ 2
            + (a.c1 + (b.c1 - a.c1) * (d / a.distance sqrt b) - a.c1) ^ 2
            = ((a.c0 - b.c0) ^ 2 + (a.c1 - b.c1) ^ 2) * (d / a.distance sqrt b) ^ 2 := by
          ring
        rw [this, ← hLL]
        field_simp
        ring
      rw [harg]
      exact hs.sqrt_mul_self hd0
  · refine ⟨_, getStateInDistance_eq sqrt a b _ hL, ?_⟩
    simp only [eq, x, y, Bool.and_eq_true, decide_eq_true_eq]
    rw [div_self hL]
    constructor <;> ring

/-- Witness of `getStateInDistance_on_segment`: from `(0, 0)` towards `(3, 4)` over the
reals, at distance 2. -/
theorem getStateInDistance_on_segment_witness :
    (∃ r, (Point.mk2 (0 : ℝ) 0).getStateInDistance Real.sqrt (Point.mk2 3 4) 2 = some r ∧
      (∃ t, 0 ≤ t ∧ t ≤ 1 ∧
        r.x = (Point.mk2 (0 : ℝ) 0).x + t * ((Point.mk2 (3 : ℝ) 4).x - (Point.mk2 (0 : ℝ) 0).x) ∧
        r.y = (Point.mk2 (0 : ℝ) 0).y
          + t * ((Point.mk2 (3 : ℝ) 4).y - (Point.mk2 (0 : ℝ) 0).y)) ∧
      r.distance Real.sqrt (Point.mk2 0 0) = 2) ∧
    (∃ r, (Point.mk2 (0 : ℝ) 0).getStateInDistance Real.sqrt (Point.mk2 3 4)
        ((Point.mk2 (0 : ℝ) 0).distance Real.sqrt (Point.mk2 3 4)) = some r ∧
      r.eq (Point.mk2 3 4) = true) :=
  getStateInDistance_on_segment Real.sqrt isSqrt_real (Point.mk2 0 0) (Point.mk2 3 4) 2
    (by simp [eq, mk2, x, y]) (by norm_num)
    (by
      rw [distance_eq]
      apply Real.le_sqrt_of_sq_le
      simp only [mk2, x, y]
      norm_num)

end Point
namespace Point

variable {T : Type}

/-- The point reached by `getStateInDistance` lies at distance `d` from the start. -/
theorem distance_of_step [LinearOrderedField T] (sqrt : T → T) (hs : IsSqrt sqrt)
    (a b : Point T) (d : T) (hL : a.distance sqrt b ≠ 0) (hd0 : 0 ≤ d) :
    (⟨a.c0 + (b.c0 - a.c0) * (d / a.distance sqrt b),
      a.c1 + (b.c1 - a.c1) * (d / a.distance sqrt b), 0⟩ : Point T).distance sqrt a = d := by
  have hnn : (0 : T) ≤ (a.x - b.x) ^ 2 + (a.y - b.y) ^ 2 := by positivity
  obtain ⟨_, hLL⟩ := hs _ hnn
  rw [← distance_eq sqrt a b] at hLL
  rw [distance_eq]
  simp only [x, y] at hLL ⊢
  have harg : (a.c0 + (b.c0 - a.c0) * (d / a.distance sqrt b) - a.c0) ^ 2
      + (a.c1 + (b.c1 - a.c1) * (d / a.distance sqrt b) - a.c1) ^ 2 = d * d := by
    have : (a.c0 + (b.c0 - a.c0) * (d / a.distance sqrt b) - a.c0) ^ 2
        + (a.c1 + (b.c1 - a.c1) * (d / a.distance sqrt b) - a.c1) ^ 2
        = ((a.c0 - b.c0) ^ 2 + (a.c1 - b.c1) ^ 2) * (d / a.distance sqrt b) ^ 2 := by
      ring
    rw [this, ← hLL]
    field_simp
    ring
  rw [harg]
  exact hs.sqrt_mul_self hd0

/-- Points that differ under `operator==` are at non-zero distance. -/
theorem distance_ne_zero [LinearOrderedField T] (sqrt : T → T) (hs : IsSqrt sqrt)
    (a b : Point T) (hab : a.eq b = false) : a.distance sqrt b ≠ 0 := by
  have hnn : (0 : T) ≤ (a.x - b.x) ^ 2 + (a.y - b.y) ^ 2 := by positivity
  intro h
  rw [distance_eq, hs.eq_zero_iff hnn, sq_sum_eq_zero_iff] at h
  rw [h] at hab
  exact Bool.noConfusion hab

/-- The distance reads only `x()` and `y()` of its first argument. -/
theorem distance_congr [LinearOrderedField T] (sqrt : T → T) (r b a : Point T)
    (h : r.eq b = true) : r.distance sqrt a = b.distance sqrt a := by
  simp only [eq, Bool.and_eq_true, decide_eq_true_eq] at h
  rw [distance_eq, distance_eq, h.1, h.2]

/-- C11, the claim as stated fails: from `(0, 0)` towards `(1, 0)`, at distance 1, the
call with `d = 2` returns `(2, 0)`, a point beyond the target. -/
theorem getStateInDistance_overshoots :
    (Point.mk2 (0 : ℝ) 0).distance Real.sqrt (Point.mk2 1 0) ≤ 2 ∧
    (Point.mk2 (0 : ℝ) 0).getStateInDistance Real.sqrt (Point.mk2 1 0) 2
      = some ⟨2, 0, 0⟩ ∧
    (⟨2, 0, 0⟩ : Point ℝ).eq (Point.mk2 1 0) = false := by
  have h1 : (Point.mk2 (0 : ℝ) 0).distance Real.sqrt (Point.mk2 1 0) = 1 := by
    rw [distance_eq]
    simp [mk2, x, y]
  refine ⟨by rw [h1]; norm_num, ?_, by simp [eq, mk2, x, y]⟩
  rw [getStateInDistance_eq _ _ _ _ (by rw [h1]; norm_num), h1]
  simp [mk2]

/-- C11, amended: over exact coordinates (an ordered field with an exact square root
`sqrt`), for all points `a`, `b` that differ under `operator==` and every
`d ≥ ‖b - a‖`, `a.getStateInDistance(b, d)` returns the point
`a + t (b - a)` with `t = d / ‖b - a‖ ≥ 1`, at distance `d` from `a`: there is no clamping,
and the result equals `b` exactly when `d = ‖b - a‖`. -/
theorem getStateInDistance_beyond [LinearOrderedField T] (sqrt : T → T)
    (hs : IsSqrt sqrt) (a b : Point T) (d : T)
    (hab : a.eq b = false) (hd : a.distance sqrt b ≤ d) :
    ∃ r, a.getStateInDistance sqrt b d = some r ∧
      (∃ t, 1 ≤ t ∧ r.x = a.x + t * (b.x - a.x) ∧ r.y = a.y + t * (b.y - a.y)) ∧
      r.distance sqrt a = d ∧
      (r.eq b = true ↔ d = a.distance sqrt b) := by
  have hnn : (0 : T) ≤ (a.x - b.x) ^ 2 + (a.y - b.y) ^ 2 := by positivity
  have hL0 : 0 ≤ a.distance sqrt b := by
    rw [distance_eq]
    exact (hs _ hnn).1
  have hL := distance_ne_zero sqrt hs a b hab
  have hLpos : 0 < a.distance sqrt b := lt_of_le_of_ne hL0 (Ne.symm hL)
  have hd0 : 0 ≤ d := le_trans hL0 hd
  have hdist := distance_of_step sqrt hs a b d hL hd0
  refine ⟨_, getStateInDistance_eq sqrt a b d hL, ⟨d / a.distance sqrt b,
    (one_le_div hLpos).mpr hd, ?_, ?_⟩, hdist, ?_⟩
  · simp only [x]; ring
  · simp only [y]; ring
  · constructor
    · intro h
      rw [← hdist, distance_congr sqrt _ b a h, distance_comm]
    · intro h
      simp only [eq, x, y, Bool.and_eq_true, decide_eq_true_eq]
      rw [h, div_self hL]
      constructor <;> ring

/-- Witness of `getStateInDistance_beyond`: from `(0, 0)` towards `(1, 0)` over the reals,
with `d = 2`. -/
theorem getStateInDistance_beyond_witness :
    ∃ r, (Point.mk2 (0 : ℝ) 0).getStateInDistance Real.sqrt (Point.mk2 1 0) 2 = some r ∧
      (∃ t, 1 ≤ t ∧
        r.x = (Point.mk2 (0 : ℝ) 0).x + t * ((Point.mk2 (1 : ℝ) 0).x - (Point.mk2 (0 : ℝ) 0).x) ∧
        r.y = (Point.mk2 (0 : ℝ) 0).y
          + t * ((Point.mk2 (1 : ℝ) 0).y - (Point.mk2 (0 : ℝ) 0).y)) ∧
      r.distance Real.sqrt (Point.mk2 0 0) = 2 ∧
      (r.eq (Point.mk2 1 0) = true ↔
        2 = (Point.mk2 (0 : ℝ) 0).distance Real.sqrt (Point.mk2 1 0)) :=
  getStateInDistance_beyond Real.sqrt isSqrt_real (Point.mk2 0 0) (Point.mk2 1 0) 2
    (by simp [eq, mk2, x, y])
    (by
      rw [distance_eq]
      simp [mk2, x, y])

end Point

namespace Vector

variable {T : Type}

/-- Value of `normalize()` on a vector of non-zero norm. -/
theorem normalize_eq [Field T] [DecidableEq T] (sqrt : T → T) (v : Vector T)
    (hs : v.size sqrt ≠ 0) :
    v.normalize sqrt = some ⟨v.c0 / v.size sqrt, v.c1 / v.size sqrt, v.c2⟩ := by
  have hr : List.range 2 = [0, 1] := rfl
  simp [normalize, divide, hs, hr, Vector.set, Vector.get]

/-- There is no value of `normalize()` on a vector of norm zero. -/
theorem normalize_none [Field T] [DecidableEq T] (sqrt : T → T) (v : Vector T)
    (hs : v.size sqrt = 0) : v.normalize sqrt = none := by
  have hr : List.range 2 = [0, 1] := rfl
  simp [normalize, divide, hs, hr]

/-- The loop of `size` computes the square root of the sum of the two squared
coordinates. -/
theorem size_eq [CommRing T] (sqrt : T → T) (v : Vector T) :
    v.size sqrt = sqrt (v.c0 ^ 2 + v.c1 ^ 2) := by
  have h : v.size sqrt = sqrt (0 + v.c0 * v.c0 + v.c1 * v.c1) := rfl
  rw [h]
  congr 1
  ring

/-- C12, the claim as stated fails: the zero vector has norm zero and `normalize()`
divides its coordinates by that norm, so it yields no vector. -/
theorem normalize_zero_vector :
    (Vector.zero : Vector ℝ).size Real.sqrt = 0 ∧
    (Vector.zero : Vector ℝ).normalize Real.sqrt = none := by
  have h0 : (Vector.zero : Vector ℝ).size Real.sqrt = 0 := by
    rw [size_eq]
    simp [Vector.zero]
  exact ⟨h0, normalize_none _ _ h0⟩

/-- C12, amended: `normalize()` divides both coordinates by `size()` without a guard; for
every vector whose norm is zero this is a division by zero and no vector results, and
for a non-zero norm the result is `(x / size(), y / size())`. -/
theorem normalize_spec [Field T] [DecidableEq T] (sqrt : T → T) (v : Vector T) :
    (v.size sqrt = 0 → v.normalize sqrt = none ∧ divide (v.get 0) (v.size sqrt) = none) ∧
    (v.size sqrt ≠ 0 →
      v.normalize sqrt = some ⟨v.c0 / v.size sqrt, v.c1 / v.size sqrt, v.c2⟩) := by
  refine ⟨fun h => ⟨normalize_none sqrt v h, by simp [divide, h]⟩, normalize_eq sqrt v⟩

/-- Witness of `normalize_spec`: the vector `(3, 4)` over the reals, of norm 5. -/
theorem normalize_spec_witness :
    (Vector.mk2 (3 : ℝ) 4).normalize Real.sqrt
      = some ⟨3 / (Vector.mk2 (3 : ℝ) 4).size Real.sqrt,
              4 / (Vector.mk2 (3 : ℝ) 4).size Real.sqrt, 0⟩ :=
  (normalize_spec Real.sqrt (Vector.mk2 3 4)).2 (by
    rw [size_eq]
    simp only [mk2]
    have h : (0 : ℝ) < 3 ^ 2 + 4 ^ 2 := by norm_num
    exact (Real.sqrt_pos.mpr h).ne')

/-- C13, the code at the failing input: for vectors built by `Vector(x, y)` the operator
`|` returns the zero vector, whatever the inputs; for `(1, 0)` and `(0, 1)` the `z`
component `x1*y2 - y1*x2` would be `1`. -/
theorem cross_2d_is_zero :
    (∀ x1 y1 x2 y2 : ℚ,
      Vector.cross (Vector.mk2 x1 y1) (Vector.mk2 x2 y2) = ⟨0, 0, 0⟩) ∧
    Vector.cross (Vector.mk2 (1 : ℚ) 0) (Vector.mk2 0 1) = ⟨0, 0, 0⟩ ∧
    (1 : ℚ) * 1 - 0 * 0 ≠ 0 := by
  refine ⟨?_, ?_, by norm_num⟩
  · intro x1 y1 x2 y2
    simp [cross, mk2, get]
  · simp [cross, mk2, get]

end Vector

namespace Point

variable {T : Type}

/-- C18: for all points `p`, `q`, `r` over linearly ordered coordinates, `operator==`
holds iff both coordinates are equal, `operator!=` is its negation, and `operator<` is the
lexicographic order on `(x, y)`: irreflexive, transitive, and exactly one of `p < q`,
`p == q`, `q < p` holds. -/
theorem comparisons_lexicographic [LinearOrder T] (p q r : Point T) :
    (p.eq q = true ↔ p.x = q.x ∧ p.y = q.y) ∧
    (p.ne q = !p.eq q) ∧
    (p.lt q = true ↔ p.x < q.x ∨ (p.x = q.x ∧ p.y < q.y)) ∧
    p.lt p = false ∧
    (p.lt q = true → q.lt r = true → p.lt r = true) ∧
    ((p.lt q = true ∧ p.eq q = false ∧ q.lt p = false) ∨
     (p.lt q = false ∧ p.eq q = true ∧ q.lt p = false) ∨
     (p.lt q = false ∧ p.eq q = false ∧ q.lt p = true)) := by
  have hlt : ∀ a b : Point T, a.lt b = true ↔ a.x < b.x ∨ (a.x = b.x ∧ a.y < b.y) := by
    intro a b
    simp [lt]
  have hltf : ∀ a b : Point T, a.lt b = false ↔ ¬ (a.x < b.x ∨ (a.x = b.x ∧ a.y < b.y)) := by
    intro a b
    rw [← hlt, Bool.not_eq_true]
  have heq : ∀ a b : Point T, a.eq b = true ↔ a.x = b.x ∧ a.y = b.y := by
    intro a b
    simp [eq]
  have heqf : ∀ a b : Point T, a.eq b = false ↔ ¬ (a.x = b.x ∧ a.y = b.y) := by
    intro a b
    rw [← heq, Bool.not_eq_true]
  refine ⟨heq p q, ?_, hlt p q, ?_, ?_, ?_⟩
  · simp only [ne, eq]
    by_cases hx : p.x = q.x <;> by_cases hy : p.y = q.y <;> simp [hx, hy]
  · rw [hltf]
    rintro (h | ⟨_, h⟩) <;> exact lt_irrefl _ h
  · rw [hlt, hlt, hlt]
    rintro (h1 | ⟨e1, h1⟩) (h2 | ⟨e2, h2⟩)
    · exact Or.inl (lt_trans h1 h2)
    · exact Or.inl (e2 ▸ h1)
    · exact Or.inl (e1 ▸ h2)
    · exact Or.inr ⟨e1.trans e2, lt_trans h1 h2⟩
  · simp only [hlt, hltf, heq, heqf]
    rcases lt_trichotomy p.x q.x with hx | hx | hx
    · refine Or.inl ⟨Or.inl hx, ?_, ?_⟩
      · rintro ⟨e, _⟩
        exact absurd e (ne_of_lt hx)
      · rintro (h | ⟨e, _⟩)
        · exact lt_asymm hx h
        · exact absurd e.symm (ne_of_lt hx)
    · rcases lt_trichotomy p.y q.y with hy | hy | hy
      · refine Or.inl ⟨Or.inr ⟨hx, hy⟩, ?_, ?_⟩
        · rintro ⟨_, e⟩
          exact absurd e (ne_of_lt hy)
        · rintro (h | ⟨_, h⟩)
          · exact absurd hx.symm (ne_of_lt h)
          · exact lt_asymm hy h
      · refine Or.inr (Or.inl ⟨?_, ⟨hx, hy⟩, ?_⟩)
        · rintro (h | ⟨_, h⟩)
          · exact absurd hx (ne_of_lt h)
          · exact absurd hy (ne_of_lt h)
        · rintro (h | ⟨_, h⟩)
          · exact absurd hx.symm (ne_of_lt h)
          · exact absurd hy.symm (ne_of_lt h)
      · refine Or.inr (Or.inr ⟨?_, ?_, Or.inr ⟨hx.symm, hy⟩⟩)
        · rintro (h | ⟨_, h⟩)
          · exact absurd hx (ne_of_lt h)
          · exact lt_asymm hy h
        · rintro ⟨_, e⟩
          exact absurd e.symm (ne_of_lt hy)
    · refine Or.inr (Or.inr ⟨?_, ?_, Or.inl hx⟩)
      · rintro (h | ⟨e, _⟩)
        · exact lt_asymm hx h
        · exact absurd e.symm (ne_of_lt hx)
      · rintro ⟨e, _⟩
        exact absurd e.symm (ne_of_lt hx)

/-- Witness of `comparisons_lexicographic`: `(1, 5) < (2, 0) < (2, 3)` gives
`(1, 5) < (2, 3)` over the integers. -/
theorem comparisons_lexicographic_witness :
    (Point.mk2 (1 : ℤ) 5).lt (Point.mk2 2 3) = true :=
  (comparisons_lexicographic (Point.mk2 (1 : ℤ) 5) (Point.mk2 2 0) (Point.mk2 2 3)).2.2.2.2.1
    (by decide) (by decide)

end Point

namespace DistanceHolder

variable {T : Type}

/-- For ids on the same side of `2^31` the order of `GetId` is the order of the stored
ids. -/
theorem GetId_lt_iff (n1 n2 : Node T) (h1 : n1.id < 2 ^ 32) (h2 : n2.id < 2 ^ 32)
    (hside : n1.id < 2 ^ 31 ↔ n2.id < 2 ^ 31) :
    n1.GetId < n2.GetId ↔ n1.id < n2.id := by
  simp only [Node.GetId, toInt]
  rw [Nat.mod_eq_of_lt h1, Nat.mod_eq_of_lt h2]
  split_ifs <;> omega

/-- C19, the claim as stated fails: for the node `a` of id `2^31 - 1` and the node `b` of
id `2^31`, `DistanceHolder(a, b, d, p)` stores the reversed plan although
`a.id < b.id`. -/
theorem mk4_reverses_for_smaller_id :
    (sampleNode (2 ^ 31 - 1) (0 : ℚ) 0 0).id < (sampleNode (2 ^ 31) (3 : ℚ) 4 1).id ∧
    ∃ h, mk4 (sampleMemory (sampleNode (2 ^ 31 - 1) (0 : ℚ) 0 0) (sampleNode (2 ^ 31) 3 4 1))
        (some 0) (some 1) 9 [some 0, none, some 1] = some h ∧
      h.plan = [some 1, none, some 0] ∧ h.plan ≠ [some 0, none, some 1] := by
  refine ⟨by decide, ⟨some 1, some 0, 9, [some 1, none, some 0]⟩, by decide, rfl, by decide⟩

/-- C19, amended: for nodes `a`, `b`, every distance `d` and plan `p`, the plan-carrying
constructor stores `p` when `a.GetId() < b.GetId()` and `reverse(p)` otherwise (also for
equal ids), where `a.GetId() < b.GetId()` is `a.id < b.id` whenever the two ids lie on the
same side of `2^31`; when the ids differ, `DistanceHolder(a, b, d, p)` and
`DistanceHolder(b, a, d, reverse(p))` are the same holder. -/
theorem mk4_order_symmetric (mem : Memory T) (a b : Ptr) (na nb : Node T) (d : T)
    (p : List Ptr) (ha : deref mem a = some na) (hb : deref mem b = some nb) :
    (∃ h, mk4 mem a b d p = some h ∧ h.distance = d ∧
      (na.GetId < nb.GetId → h.node1 = a ∧ h.node2 = b ∧ h.plan = p) ∧
      (¬ na.GetId < nb.GetId → h.node1 = b ∧ h.node2 = a ∧ h.plan = p.reverse) ∧
      (na.id < 2 ^ 32 → nb.id < 2 ^ 32 → (na.id < 2 ^ 31 ↔ nb.id < 2 ^ 31) →
        h.plan = if na.id < nb.id then p else p.reverse)) ∧
    (na.GetId ≠ nb.GetId → mk4 mem a b d p = mk4 mem b a d p.reverse) ∧
    (na.id < 2 ^ 32 → nb.id < 2 ^ 32 → na.id ≠ nb.id →
      mk4 mem a b d p = mk4 mem b a d p.reverse) := by
  have e1 := mk4_eq mem a b na nb d p ha hb
  have e2 := mk4_eq mem b a nb na d p.reverse hb ha
  have hsym : na.GetId ≠ nb.GetId → mk4 mem a b d p = mk4 mem b a d p.reverse := by
    intro hne
    rw [e1, e2]
    rcases lt_or_gt_of_ne hne with h | h
    · have h1 : na.lt nb = true := by simp [Node.lt, h]
      have h2 : nb.lt na = false := by simp [Node.lt, le_of_lt h]
      simp [h1, h2]
    · have h1 : na.lt nb = false := by simp [Node.lt, le_of_lt h]
      have h2 : nb.lt na = true := by simp [Node.lt, h]
      simp [h1, h2]
  refine ⟨⟨_, e1, rfl, ?_, ?_, ?_⟩, hsym, ?_⟩
  · intro h
    have hb' : na.lt nb = true := by simp [Node.lt, h]
    simp [hb']
  · intro h
    have hb' : na.lt nb = false := by simp [Node.lt, h]
    simp [hb']
  · intro h1 h2 hside
    by_cases h : na.id < nb.id
    · have hb' : na.lt nb = true := by
        simp [Node.lt, (GetId_lt_iff na nb h1 h2 hside).mpr h]
      simp [hb', h]
    · have hb' : na.lt nb = false := by
        simp only [Node.lt, decide_eq_false_iff_not]
        exact fun hc => h ((GetId_lt_iff na nb h1 h2 hside).mp hc)
      simp [hb', h]
  · intro h1 h2 hne
    exact hsym (fun he => hne (toInt_inj h1 h2 he))

/-- Witness of `mk4_order_symmetric`: the node of id 7 passed before the node of id 3. -/
theorem mk4_order_symmetric_witness :
    (∃ h, mk4 (sampleMemory (sampleNode 7 (0 : ℚ) 0 0) (sampleNode 3 3 4 1)) (some 0) (some 1)
          9 [some 0, none, some 1] = some h ∧ h.distance = 9 ∧
      ((sampleNode 7 (0 : ℚ) 0 0).GetId < (sampleNode 3 (3 : ℚ) 4 1).GetId →
        h.node1 = some 0 ∧ h.node2 = some 1 ∧ h.plan = [some 0, none, some 1]) ∧
      (¬ (sampleNode 7 (0 : ℚ) 0 0).GetId < (sampleNode 3 (3 : ℚ) 4 1).GetId →
        h.node1 = some 1 ∧ h.node2 = some 0 ∧ h.plan = [some 0, none, some 1].reverse) ∧
      ((sampleNode 7 (0 : ℚ) 0 0).id < 2 ^ 32 → (sampleNode 3 (3 : ℚ) 4 1).id < 2 ^ 32 →
        ((sampleNode 7 (0 : ℚ) 0 0).id < 2 ^ 31 ↔ (sampleNode 3 (3 : ℚ) 4 1).id < 2 ^ 31) →
        h.plan = if (sampleNode 7 (0 : ℚ) 0 0).id < (sampleNode 3 (3 : ℚ) 4 1).id
          then [some 0, none, some 1] else [some 0, none, some 1].reverse)) ∧
    ((sampleNode 7 (0 : ℚ) 0 0).GetId ≠ (sampleNode 3 (3 : ℚ) 4 1).GetId →
      mk4 (sampleMemory (sampleNode 7 (0 : ℚ) 0 0) (sampleNode 3 3 4 1)) (some 0) (some 1)
          9 [some 0, none, some 1]
        = mk4 (sampleMemory (sampleNode 7 (0 : ℚ) 0 0) (sampleNode 3 3 4 1)) (some 1) (some 0)
          9 [some 0, none, some 1].reverse) ∧
    ((sampleNode 7 (0 : ℚ) 0 0).id < 2 ^ 32 → (sampleNode 3 (3 : ℚ) 4 1).id < 2 ^ 32 →
      (sampleNode 7 (0 : ℚ) 0 0).id ≠ (sampleNode 3 (3 : ℚ) 4 1).id →
      mk4 (sampleMemory (sampleNode 7 (0 : ℚ) 0 0) (sampleNode 3 3 4 1)) (some 0) (some 1)
          9 [some 0, none, some 1]
        = mk4 (sampleMemory (sampleNode 7 (0 : ℚ) 0 0) (sampleNode 3 3 4 1)) (some 1) (some 0)
          9 [some 0, none, some 1].reverse) :=
  mk4_order_symmetric (sampleMemory (sampleNode 7 (0 : ℚ) 0 0) (sampleNode 3 3 4 1))
    (some 0) (some 1) (sampleNode 7 0 0 0) (sampleNode 3 3 4 1) 9 [some 0, none, some 1]
    rfl rfl

end DistanceHolder

namespace Tree

variable {T H : Type}

/-- A loop that accumulates `&=` over a list computes the conjunction of its values. -/
theorem foldl_and_eq {α : Type} (f : α → Bool) (l : List α) (b : Bool) :
    l.foldl (fun r x => r && f x) b = (b && l.all f) := by
  induction l generalizing b with
  | nil => simp
  | cons a l ih =>
    simp only [List.foldl_cons, List.all_cons, ih]
    cases b <;> simp

/-- Value of `EmptyFrontiers()`. -/
theorem EmptyFrontiers_eq (empty : H → Bool) (t : Tree T H) :
    t.EmptyFrontiers empty = (t.frontiers.all empty || t.frontierFilter.all (fun b => b)) := by
  have h1 := foldl_and_eq empty t.frontiers true
  have h2 := foldl_and_eq (fun b => b) t.frontierFilter true
  simp only [Bool.true_and] at h1 h2
  simp only [EmptyFrontiers, h1, h2]

/-- C14: for every tree state, `EmptyFrontiers()` returns true if and only if every heap
in `frontiers` reports `empty()` or every flag in `frontierFilter` is true; it returns
true for a tree with no frontiers. -/
theorem EmptyFrontiers_iff (empty : H → Bool) (t : Tree T H) :
    (t.EmptyFrontiers empty = true ↔
      (∀ h ∈ t.frontiers, empty h = true) ∨ (∀ f ∈ t.frontierFilter, f = true)) ∧
    (t.frontiers = [] → t.EmptyFrontiers empty = true) := by
  have key : t.EmptyFrontiers empty = true ↔
      (∀ h ∈ t.frontiers, empty h = true) ∨ (∀ f ∈ t.frontierFilter, f = true) := by
    rw [EmptyFrontiers_eq]
    simp [List.all_eq_true]
  refine ⟨key, ?_⟩
  intro h
  rw [key, h]
  exact Or.inl (fun _ hm => absurd hm (List.not_mem_nil _))

/-- Witness of `EmptyFrontiers_iff`: a tree without frontiers whose only filter flag is
off. -/
theorem EmptyFrontiers_iff_witness :
    (sampleTree ([] : List (List Nat)) [false] : Tree ℚ (List Nat)).EmptyFrontiers List.isEmpty
      = true :=
  (EmptyFrontiers_iff List.isEmpty (sampleTree [] [false])).2 rfl

/-- C15: for a tree state with `|frontiers| = |frontierFilter|` and every goal,
`AddFrontier(goal)` appends one heap to `frontiers` and one flag `false` to
`frontierFilter`, changes nothing else, keeps `|frontiers| = |frontierFilter|`, and right
afterwards `EmptyFrontiers()` is true only if every frontier heap is empty. -/
theorem AddFrontier_spec [Field T] (AStar : Bool)
    (heapCtor : List (Node T) → Ptr → Bool → (Node T → Node T → T) → H)
    (sqrt : T → T) (empty : H → Bool) (t : Tree T H) (goal : Ptr)
    (hlen : t.frontiers.length = t.frontierFilter.length) :
    (∃ prior, (t.AddFrontier AStar heapCtor sqrt goal)
        = { t with frontiers := t.frontiers ++ [prior],
                   frontierFilter := t.frontierFilter ++ [false] } ∧
      prior = heapCtor t.nodes goal true
        (if AStar then StarDistance sqrt else Distance sqrt)) ∧
    (t.AddFrontier AStar heapCtor sqrt goal).frontiers.length = t.frontiers.length + 1 ∧
    (t.AddFrontier AStar heapCtor sqrt goal).frontierFilter.length
      = t.frontierFilter.length + 1 ∧
    (t.AddFrontier AStar heapCtor sqrt goal).frontiers.length
      = (t.AddFrontier AStar heapCtor sqrt goal).frontierFilter.length ∧
    ((t.AddFrontier AStar heapCtor sqrt goal).EmptyFrontiers empty = true →
      ∀ h ∈ (t.AddFrontier AStar heapCtor sqrt goal).frontiers, empty h = true) := by
  refine ⟨⟨_, rfl, ?_⟩, ?_, ?_, ?_, ?_⟩
  · cases AStar <;> rfl
  · simp [AddFrontier]
  · simp [AddFrontier]
  · simp [AddFrontier, hlen]
  · rw [EmptyFrontiers_eq]
    intro h hf hm
    have hfalse : (t.AddFrontier AStar heapCtor sqrt goal).frontierFilter.all (fun b => b) = false := by
      simp [AddFrontier]
    rw [hfalse, Bool.or_false, List.all_eq_true] at h
    exact h hf hm

/-- Witness of `AddFrontier_spec`: a tree with one frontier and one flag. -/
theorem AddFrontier_spec_witness :
    (sampleTree [[1]] [true] : Tree ℚ (List Nat)).frontiers.length
      = (sampleTree [[1]] [true] : Tree ℚ (List Nat)).frontierFilter.length ∧
    ((sampleTree [[1]] [true] : Tree ℚ (List Nat)).AddFrontier false
        (fun _ _ _ _ => []) (fun x => x) none).frontierFilter.length
      = (sampleTree [[1]] [true] : Tree ℚ (List Nat)).frontierFilter.length + 1 :=
  ⟨rfl, (AddFrontier_spec false (fun _ _ _ _ => []) (fun x => x) List.isEmpty
    (sampleTree [[1]] [true] : Tree ℚ (List Nat)) none rfl).2.2.1⟩

end Tree

namespace Tree

variable {T H : Type}

end Tree

namespace Node

variable {T : Type}

/-- A construction that succeeds gives the node the counter value and increments the
counter. -/
theorem new_id (mem : Memory T) (g : Nat) (a : NodeArgs T) (n : Node T) (g' : Nat)
    (h : Node.new mem g a = some (n, g')) : n.id = g ∧ g' = (g + 1) % 2 ^ 32 := by
  unfold Node.new at h
  split at h
  · simp only [Option.some.injEq, Prod.mk.injEq] at h
    obtain ⟨h1, h2⟩ := h
    subst h1
    exact ⟨rfl, h2.symm⟩
  · split at h
    · exact Option.noConfusion h
    · simp only [Option.some.injEq, Prod.mk.injEq] at h
      obtain ⟨h1, h2⟩ := h
      subst h1
      exact ⟨rfl, h2.symm⟩

/-- A construction succeeds when `closest` is null or points to a node. -/
theorem new_isSome (mem : Memory T) (g : Nat) (a : NodeArgs T)
    (h : a.closest ≠ none → (deref mem a.closest).isSome = true) :
    ∃ n g', Node.new mem g a = some (n, g') := by
  unfold Node.new
  cases hc : a.closest with
  | none => exact ⟨_, _, rfl⟩
  | some addr =>
    have h2 := h (by rw [hc]; exact Option.some_ne_none addr)
    rw [hc] at h2
    simp only [deref, Option.some_bind] at h2
    dsimp only
    cases hm : mem addr with
    | none => rw [hm] at h2; exact Bool.noConfusion h2
    | some c => exact ⟨_, _, rfl⟩

/-- A sequence of constructions succeeds when every `closest` is null or points to a
node. -/
theorem constructAll_isSome (steps : List (Memory T × NodeArgs T)) (c : Nat)
    (hv : ∀ s ∈ steps, s.2.closest ≠ none → (deref s.1 s.2.closest).isSome = true) :
    ∃ nodes g, constructAll c steps = some (nodes, g) := by
  induction steps generalizing c with
  | nil => exact ⟨[], c, rfl⟩
  | cons s rest ih =>
    obtain ⟨n, g, hn⟩ := new_isSome s.1 c s.2 (hv s (List.mem_cons_self _ _))
    obtain ⟨ns, g', hns⟩ := ih g (fun s' hs' => hv s' (List.mem_cons_of_mem _ hs'))
    exact ⟨n :: ns, g', by simp only [constructAll, hn, hns]⟩

/-- While the counter does not wrap, the `k`-th constructed node has id `c + k`. -/
theorem constructAll_ids (steps : List (Memory T × NodeArgs T)) (c : Nat)
    (nodes : List (Node T)) (g : Nat)
    (hc : c + steps.length < 2 ^ 32) (h : constructAll c steps = some (nodes, g)) :
    nodes.length = steps.length ∧ g = c + steps.length ∧
    ∀ k n, nodes[k]? = some n → n.id = c + k := by
  induction steps generalizing c nodes g with
  | nil =>
    simp only [constructAll, Option.some.injEq, Prod.mk.injEq] at h
    obtain ⟨h1, h2⟩ := h
    subst h1 h2
    simp
  | cons s rest ih =>
    simp only [constructAll] at h
    split at h
    · exact Option.noConfusion h
    · rename_i n g1 hn
      split at h
      · exact Option.noConfusion h
      · rename_i ns g2 hns
        simp only [Option.some.injEq, Prod.mk.injEq] at h
        obtain ⟨h1, h2⟩ := h
        subst h1 h2
        obtain ⟨hid, hg1⟩ := new_id s.1 c s.2 n g1 hn
        simp only [List.length_cons] at hc
        have hg1' : g1 = c + 1 := by rw [hg1]; exact Nat.mod_eq_of_lt (by omega)
        subst hg1'
        obtain ⟨hl, hg, hk⟩ := ih (c + 1) ns g2 (by omega) hns
        refine ⟨by simp [hl], by simp only [List.length_cons]; omega, ?_⟩
        intro k m hm
        cases k with
        | zero =>
          simp only [List.getElem?_cons_zero, Option.some.injEq] at hm
          subst hm
          simpa using hid
        | succ k =>
          simp only [List.getElem?_cons_succ] at hm
          have := hk k m hm
          omega

/-- C17, the claim as stated fails: two constructions from the counter value `2^31 - 1`
give the ids `2^31 - 1` and `2^31`, but `operator<` does not hold between the first node
and the second. -/
theorem lt_fails_across_int_max :
    (2 ^ 31 - 1) + 2 < 2 ^ 32 ∧
    ∃ (n0 n1 : Node ℚ) (g : Nat), constructAll (2 ^ 31 - 1)
        [((fun _ => none : Memory ℚ), sampleArgs), ((fun _ => none : Memory ℚ), sampleArgs)]
          = some ([n0, n1], g) ∧
      n0.id = 2 ^ 31 - 1 ∧ n1.id = 2 ^ 31 ∧ n0.id < n1.id ∧
      n0.lt n1 = false ∧ n1.lt n0 = true := by
  refine ⟨by norm_num, _, _, _, rfl, rfl, rfl, by decide, by decide, by decide⟩

/-- C17, amended: with the static counter `globId` as explicit state, for every sequence
of `n` constructions starting from the counter value `c` with `c + n < 2^32`, the `k`-th
node gets id `c + k`, so ids are strictly increasing in construction order, pairwise
distinct and dense, and `operator==` holds exactly when the ids are equal; `operator<`
holds exactly when the id is smaller provided `c + n ≤ 2^31`. -/
theorem constructAll_spec (steps : List (Memory T × NodeArgs T)) (c : Nat)
    (hv : ∀ s ∈ steps, s.2.closest ≠ none → (deref s.1 s.2.closest).isSome = true)
    (hc : c + steps.length < 2 ^ 32) :
    ∃ (nodes : List (Node T)) (g : Nat), constructAll c steps = some (nodes, g) ∧
      nodes.length = steps.length ∧ g = c + steps.length ∧
      (∀ (k : Nat) (n : Node T), nodes[k]? = some n → n.id = c + k) ∧
      (∀ (j k : Nat) (nj nk : Node T), nodes[j]? = some nj → nodes[k]? = some nk →
        (j < k ↔ nj.id < nk.id) ∧ (j = k ↔ nj.id = nk.id) ∧
        (nj.eq nk = true ↔ nj.id = nk.id) ∧
        (c + steps.length ≤ 2 ^ 31 → (nj.lt nk = true ↔ nj.id < nk.id))) := by
  obtain ⟨nodes, g, h⟩ := constructAll_isSome steps c hv
  obtain ⟨hl, hg, hk⟩ := constructAll_ids steps c nodes g hc h
  refine ⟨nodes, g, h, hl, hg, hk, ?_⟩
  intro j k nj nk hj hk'
  have hjlt : j < nodes.length := by
    by_contra hcon
    rw [List.getElem?_eq_none (Nat.le_of_not_lt hcon)] at hj
    exact Option.noConfusion hj
  have hklt : k < nodes.length := by
    by_contra hcon
    rw [List.getElem?_eq_none (Nat.le_of_not_lt hcon)] at hk'
    exact Option.noConfusion hk'
  have ej := hk j nj hj
  have ek := hk k nk hk'
  refine ⟨by omega, by omega, ?_, ?_⟩
  · simp only [Node.eq, Node.GetId, decide_eq_true_eq]
    constructor
    · intro he
      exact toInt_inj (by omega) (by omega) he
    · intro he
      rw [he]
  · intro hb
    simp only [Node.lt, Node.GetId, decide_eq_true_eq]
    rw [toInt_of_lt (by omega : nj.id < 2 ^ 31), toInt_of_lt (by omega : nk.id < 2 ^ 31)]
    exact Int.ofNat_lt

/-- Witness of `constructAll_spec`: three parentless nodes constructed from the counter
value 5. -/
theorem constructAll_spec_witness :
    ∃ (nodes : List (Node ℚ)) (g : Nat), constructAll 5
        [((fun _ => none : Memory ℚ), sampleArgs), ((fun _ => none : Memory ℚ), sampleArgs),
         ((fun _ => none : Memory ℚ), sampleArgs)] = some (nodes, g) ∧
      nodes.length = [((fun _ => none : Memory ℚ), (sampleArgs : NodeArgs ℚ)),
         ((fun _ => none : Memory ℚ), sampleArgs),
         ((fun _ => none : Memory ℚ), sampleArgs)].length ∧
      g = 5 + [((fun _ => none : Memory ℚ), (sampleArgs : NodeArgs ℚ)),
         ((fun _ => none : Memory ℚ), sampleArgs),
         ((fun _ => none : Memory ℚ), sampleArgs)].length ∧
      (∀ (k : Nat) (n : Node ℚ), nodes[k]? = some n → n.id = 5 + k) ∧
      (∀ (j k : Nat) (nj nk : Node ℚ), nodes[j]? = some nj → nodes[k]? = some nk →
        (j < k ↔ nj.id < nk.id) ∧ (j = k ↔ nj.id = nk.id) ∧
        (nj.eq nk = true ↔ nj.id = nk.id) ∧
        (5 + [((fun _ => none : Memory ℚ), (sampleArgs : NodeArgs ℚ)),
         ((fun _ => none : Memory ℚ), sampleArgs),
         ((fun _ => none : Memory ℚ), sampleArgs)].length ≤ 2 ^ 31 →
          (nj.lt nk = true ↔ nj.id < nk.id))) :=
  constructAll_spec
    [((fun _ => none : Memory ℚ), sampleArgs), ((fun _ => none : Memory ℚ), sampleArgs),
     ((fun _ => none : Memory ℚ), sampleArgs)] 5
    (by
      intro s hs hne
      simp only [List.mem_cons, List.mem_singleton, List.not_mem_nil, or_false] at hs
      rcases hs with h | h | h <;> subst h <;> exact absurd rfl hne)
    (by simp)

end Node

end SFF
